import Mathlib

/-!
Shallow embedding of `gachapon_sim.py`: a draw-without-replacement gachapon
machine simulation.  The five item identifiers become an inductive type, the
mutable `gachapon_contents` dict becomes a function `Item → Nat`, the global
random source becomes an explicit oracle of index streams (`random.choices`
and `random.choice` pick the element of the population at the supplied index
reduced modulo the population size), and the per-run loops become fuel-based
structural recursion (run with fuel `TOTAL_CAPSULES`, which is proved
sufficient).
-/

set_option maxRecDepth 10000

namespace Gachapon

/-- The five configured item identifiers (`ITEMS` in the source). -/
inductive Item : Type where
  | catKeychain
  | dogKeychain
  | rabbitFigurine
  | hamsterSticker
  | rareGoldCat
deriving DecidableEq, Repr

/-- `ITEMS`: the configured item list, in the source order. -/
def ITEMS : List Item :=
  [Item.catKeychain, Item.dogKeychain, Item.rabbitFigurine,
   Item.hamsterSticker, Item.rareGoldCat]

/-- `CAPSULES_PER_ITEM = 10`. -/
def CAPSULES_PER_ITEM : Nat := 10

/-- `NUM_ITEM_TYPES = len(ITEMS)`. -/
def NUM_ITEM_TYPES : Nat := ITEMS.length

/-- `TOTAL_CAPSULES = NUM_ITEM_TYPES * CAPSULES_PER_ITEM` (= 50). -/
def TOTAL_CAPSULES : Nat := NUM_ITEM_TYPES * CAPSULES_PER_ITEM

/-- `ITEM_POPULARITY`: desire weights, in the source dict order. -/
def ITEM_POPULARITY : List (Item × ℚ) :=
  [(Item.catKeychain, 1/10), (Item.dogKeychain, 1/10),
   (Item.rabbitFigurine, 1/10), (Item.hamsterSticker, 1/10),
   (Item.rareGoldCat, 6/10)]

/-- `MAX_PULLS_PER_ITEM["Rare Gold Cat"]`: patience distribution. -/
def MAX_PULLS_RARE : List (Nat × ℚ) :=
  [(1, 10/100), (2, 15/100), (3, 20/100), (5, 25/100), (10, 20/100), (20, 10/100)]

/-- `MAX_PULLS_PER_ITEM["Default"]`: patience distribution. -/
def MAX_PULLS_DEFAULT : List (Nat × ℚ) :=
  [(1, 50/100), (2, 30/100), (3, 15/100), (5, 4/100), (10, 1/100), (20, 0)]

/-- `MAX_PULLS_PER_ITEM.get(desired_item, MAX_PULLS_PER_ITEM["Default"])`:
the dict has exactly the keys `"Rare Gold Cat"` and `"Default"`, so the
lookup yields the rare distribution for the rare item and the default
distribution for every other item. -/
def pull_distribution (it : Item) : List (Nat × ℚ) :=
  if it = Item.rareGoldCat then MAX_PULLS_RARE else MAX_PULLS_DEFAULT

/-- `max_pull_limit` as computed in `main`: the maximum key over all patience
distributions (iterating the `MAX_PULLS_PER_ITEM` dict). -/
def max_pull_limit : Nat :=
  max ((MAX_PULLS_RARE.map Prod.fst).foldl max 0)
      ((MAX_PULLS_DEFAULT.map Prod.fst).foldl max 0)

/-- Inventory state: the `gachapon_contents` dict.  The dict always holds
exactly the five configured item keys, so it is embedded as a record with one
count per item (field order = dict insertion order = `ITEMS` order). -/
structure Inv where
  cat : Nat
  dog : Nat
  rabbit : Nat
  hamster : Nat
  rare : Nat
deriving DecidableEq, Repr

/-- `gachapon_contents[item]` / `state.get(item, 0)`. -/
def getCount (inv : Inv) : Item → Nat
  | Item.catKeychain => inv.cat
  | Item.dogKeychain => inv.dog
  | Item.rabbitFigurine => inv.rabbit
  | Item.hamsterSticker => inv.hamster
  | Item.rareGoldCat => inv.rare

/-- `gachapon_contents[item] -= 1`. -/
def decrement (inv : Inv) : Item → Inv
  | Item.catKeychain => { inv with cat := inv.cat - 1 }
  | Item.dogKeychain => { inv with dog := inv.dog - 1 }
  | Item.rabbitFigurine => { inv with rabbit := inv.rabbit - 1 }
  | Item.hamsterSticker => { inv with hamster := inv.hamster - 1 }
  | Item.rareGoldCat => { inv with rare := inv.rare - 1 }

/-- `{item: CAPSULES_PER_ITEM for item in ITEMS}`. -/
def initial_contents : Inv :=
  ⟨CAPSULES_PER_ITEM, CAPSULES_PER_ITEM, CAPSULES_PER_ITEM,
   CAPSULES_PER_ITEM, CAPSULES_PER_ITEM⟩

/-- `sum(gachapon_contents.values())`. -/
def total_remaining (inv : Inv) : Nat := (ITEMS.map (getCount inv)).sum

/-- `capsule_pool = [item for item, count in contents.items() for _ in range(count)]`. -/
def capsule_pool (inv : Inv) : List Item :=
  ITEMS.foldr (fun it acc => List.replicate (getCount inv it) it ++ acc) []

/-- `random.choices(population, weights)[0]`, modelled value-wise: the oracle
index `r`, reduced modulo the population size, selects the element. -/
def choices1 {α : Type} (population : List α) (dflt : α) (r : Nat) : α :=
  population.getD (r % population.length) dflt

/-- One draw as in lines 92–95 of the source: build the capsule pool, pick the
element at the oracle index, decrement its count by 1. -/
def pullOnce (inv : Inv) (r : Nat) : Item × Inv :=
  let pool := capsule_pool inv
  let pulled := pool.getD (r % pool.length) Item.catKeychain
  (pulled, decrement inv pulled)

/-- The standalone draw operation (spec §4.1 `Inventory.draw`), modelled from
lines 92–95: `random.choice` on an empty pool raises, so the failure case is
`none`; otherwise the drawn item's count is decremented by 1. -/
def draw (inv : Inv) (r : Nat) : Option (Item × Inv) :=
  let pool := capsule_pool inv
  match pool.get? (r % pool.length) with
  | none => none
  | some pulled => some (pulled, decrement inv pulled)

/-- The injected random source: for each customer session an index into the
desire population and an index into the patience population, and for each
global pull number an index into the capsule pool. -/
structure Oracle where
  desiredIdx : Nat → Nat
  patienceIdx : Nat → Nat
  drawIdx : Nat → Nat

/-- Result of the inner `for _ in range(max_pulls)` loop of one customer
session: updated contents, global pull counter, depletion record,
`pulls_this_turn`, and `got_item`. -/
structure SessionStep where
  inv : Inv
  counter : Nat
  depletion : List (Item × Nat)
  pulls : Nat
  got : Bool

/-- `CustomerOutcome` TypedDict. -/
structure CustomerOutcome where
  desired_item : Item
  got_item : Bool
  pulls_taken : Nat
deriving DecidableEq, Repr

/-- `SimulationResult` TypedDict (the depletion dict is kept as an
insertion-ordered association list). -/
structure SimulationResult where
  state_history : List Inv
  customer_outcomes : List CustomerOutcome
  depletion_points : List (Item × Nat)

/-- The inner per-session pull loop (lines 85–101): at most `n` further
draws, stopping early when the machine empties or the desired item is drawn.
Each draw increments the global pull counter, removes one capsule, and
records a depletion point when a count first reaches zero. -/
def sessionLoop (o : Oracle) (desired : Item) :
    Nat → Inv → Nat → List (Item × Nat) → Nat → SessionStep
  | 0, inv, counter, dep, pulls => ⟨inv, counter, dep, pulls, false⟩
  | n + 1, inv, counter, dep, pulls =>
    if total_remaining inv = 0 then ⟨inv, counter, dep, pulls, false⟩
    else
      let counter' := counter + 1
      let pr := pullOnce inv (o.drawIdx counter')
      let dep' := if getCount pr.2 pr.1 = 0 ∧ pr.1 ∉ dep.map Prod.fst
                  then dep ++ [(pr.1, counter')] else dep
      if pr.1 = desired then ⟨pr.2, counter', dep', pulls + 1, true⟩
      else sessionLoop o desired n pr.2 counter' dep' (pulls + 1)

/-- The outer `while sum(...) > 0` customer loop of `run_single_simulation`,
with explicit fuel (each session removes at least one capsule, so
`TOTAL_CAPSULES` units of fuel suffice; this is proved below). -/
def simLoop (o : Oracle) :
    Nat → Inv → List Inv → List CustomerOutcome → List (Item × Nat) → Nat → Nat →
    SimulationResult
  | 0, _, hist, outs, dep, _, _ => ⟨hist, outs, dep⟩
  | f + 1, inv, hist, outs, dep, counter, sess =>
    if total_remaining inv = 0 then ⟨hist, outs, dep⟩
    else
      let desired := choices1 (ITEM_POPULARITY.map Prod.fst) Item.catKeychain
        (o.desiredIdx sess)
      let maxPulls := choices1 ((pull_distribution desired).map Prod.fst) 1
        (o.patienceIdx sess)
      let s := sessionLoop o desired maxPulls inv counter dep 0
      simLoop o f s.inv (hist ++ [s.inv])
        (outs ++ [(⟨desired, s.got, s.pulls⟩ : CustomerOutcome)]) s.depletion s.counter (sess + 1)

/-- `run_single_simulation`: one full machine lifetime, from the full initial
state to the empty one. -/
def run_single_simulation (o : Oracle) : SimulationResult :=
  simLoop o TOTAL_CAPSULES initial_contents [initial_contents] [] [] 0 0

/-- The inventory after `k` global pulls, determined by the draw-index stream
alone (every pull, in whichever session it occurs, draws from the pool of the
current contents at the next oracle index). -/
def invAfter (o : Oracle) : Nat → Inv
  | 0 => initial_contents
  | k + 1 =>
    if total_remaining (invAfter o k) = 0 then invAfter o k
    else (pullOnce (invAfter o k) (o.drawIdx (k + 1))).2

/-- The snapshot threshold labels (`snapshot_levels` dict keys, source
order). -/
inductive Level : Type where
  | p100
  | p75
  | p50
  | p25
  | p0
deriving DecidableEq, Repr

/-- `snapshot_levels` iteration order. -/
def SNAPSHOT_LEVELS : List Level := [Level.p100, Level.p75, Level.p50, Level.p25, Level.p0]

/-- The absolute capsule count of each threshold:
`int(TOTAL_CAPSULES * f)` truncates, which for positives is `Nat` division. -/
def levelValue : Level → Nat
  | Level.p100 => TOTAL_CAPSULES
  | Level.p75 => TOTAL_CAPSULES * 75 / 100
  | Level.p50 => TOTAL_CAPSULES * 50 / 100
  | Level.p25 => TOTAL_CAPSULES * 25 / 100
  | Level.p0 => 0

/-- The next lower configured threshold, if any. -/
def nextLowerLevel : Level → Option Level
  | Level.p100 => some Level.p75
  | Level.p75 => some Level.p50
  | Level.p50 => some Level.p25
  | Level.p25 => some Level.p0
  | Level.p0 => none

/-- `SimulationAggregator` state.  Dict-of-dict running totals become count
functions; the `{'success': _, 'failure': _}` inner dict becomes two fields;
`agg_success_by_pull_count` is a dict with key set `range(1, max_pull_limit+1)`,
kept here as a count function plus the `max_pull_limit` bound used for its
key-membership test. -/
structure SimulationAggregator where
  num_runs : Nat
  max_pull_limit : Nat
  agg_snapshots : Level → Item → Nat
  agg_success_by_item_success : Item → Nat
  agg_success_by_item_failure : Item → Nat
  agg_success_by_pull_count : Item → Nat → Nat
  agg_depletion_pulls : Item → Nat
  agg_depletion_counts : Item → Nat
  agg_pulls_successful : Nat
  agg_pulls_failed : Nat
  total_successful_customers : Nat
  total_failed_customers : Nat
  agg_lifecycle_rates : Item → ℚ
  total_lifecycle_steps : Nat
  snapshot_rate_distributions : Level → Item → List ℚ

/-- `SimulationAggregator.__init__(items, max_pull_limit)`: all totals zero,
all rate-sample lists empty. -/
def initAggregator (mpl : Nat) : SimulationAggregator where
  num_runs := 0
  max_pull_limit := mpl
  agg_snapshots := fun _ _ => 0
  agg_success_by_item_success := fun _ => 0
  agg_success_by_item_failure := fun _ => 0
  agg_success_by_pull_count := fun _ _ => 0
  agg_depletion_pulls := fun _ => 0
  agg_depletion_counts := fun _ => 0
  agg_pulls_successful := 0
  agg_pulls_failed := 0
  total_successful_customers := 0
  total_failed_customers := 0
  agg_lifecycle_rates := fun _ => 0
  total_lifecycle_steps := 0
  snapshot_rate_distributions := fun _ _ => []

/-- The per-item fractional rate stored for a captured snapshot state:
`state.get(item, 0) / remaining_capsules if remaining_capsules > 0 else 0`. -/
def snapshotRate (st : Inv) (it : Item) : ℚ :=
  if 0 < total_remaining st then (getCount st it : ℚ) / (total_remaining st : ℚ) else 0

/-- The body of `_aggregate_snapshots`' inner loop, for one state of the
(reversed) history and one threshold label: on `remaining >= value` and not
yet processed, add the state's counts, append the rate sample, and mark the
label processed. -/
def snapshot_level_step (st : Inv) (acc2 : SimulationAggregator × List Level)
    (lv : Level) : SimulationAggregator × List Level :=
  if levelValue lv ≤ total_remaining st ∧ lv ∉ acc2.2 then
    ({ acc2.1 with
        agg_snapshots := fun l it =>
          if l = lv then acc2.1.agg_snapshots l it + getCount st it
          else acc2.1.agg_snapshots l it,
        snapshot_rate_distributions := fun l it =>
          if l = lv then acc2.1.snapshot_rate_distributions l it ++ [snapshotRate st it]
          else acc2.1.snapshot_rate_distributions l it },
      acc2.2 ++ [lv])
  else acc2

/-- The body of `_aggregate_snapshots`' outer loop: check every threshold
label against one state of the (reversed) history. -/
def snapshot_step (st : Inv) (acc : SimulationAggregator × List Level) :
    SimulationAggregator × List Level :=
  SNAPSHOT_LEVELS.foldl (snapshot_level_step st) acc

/-- `_aggregate_snapshots`: iterate backwards over the state history with a
fresh `processed_snapshots` set. -/
def aggregate_snapshots (agg : SimulationAggregator) (hist : List Inv) :
    SimulationAggregator :=
  (hist.reverse.foldl (fun acc st => snapshot_step st acc) (agg, [])).1

/-- One step of `_aggregate_customer_outcomes`.  The histogram update guard
`pulls in self.agg_success_by_pull_count[desired]` is key membership in
`range(1, max_pull_limit + 1)`. -/
def outcome_step (agg : SimulationAggregator) (oc : CustomerOutcome) :
    SimulationAggregator :=
  if oc.got_item then
    { agg with
      agg_success_by_item_success := fun it =>
        if it = oc.desired_item then agg.agg_success_by_item_success it + 1
        else agg.agg_success_by_item_success it,
      agg_pulls_successful := agg.agg_pulls_successful + oc.pulls_taken,
      total_successful_customers := agg.total_successful_customers + 1,
      agg_success_by_pull_count := fun it p =>
        if 1 ≤ oc.pulls_taken ∧ oc.pulls_taken ≤ agg.max_pull_limit ∧
            it = oc.desired_item ∧ p = oc.pulls_taken
        then agg.agg_success_by_pull_count it p + 1
        else agg.agg_success_by_pull_count it p }
  else
    { agg with
      agg_success_by_item_failure := fun it =>
        if it = oc.desired_item then agg.agg_success_by_item_failure it + 1
        else agg.agg_success_by_item_failure it,
      agg_pulls_failed := agg.agg_pulls_failed + oc.pulls_taken,
      total_failed_customers := agg.total_failed_customers + 1 }

/-- `_aggregate_customer_outcomes`. -/
def aggregate_customer_outcomes (agg : SimulationAggregator)
    (outs : List CustomerOutcome) : SimulationAggregator :=
  outs.foldl outcome_step agg

/-- `_aggregate_depletion_points`. -/
def aggregate_depletion_points (agg : SimulationAggregator)
    (dep : List (Item × Nat)) : SimulationAggregator :=
  dep.foldl (fun a p =>
    { a with
      agg_depletion_pulls := fun it =>
        if it = p.1 then a.agg_depletion_pulls it + p.2 else a.agg_depletion_pulls it,
      agg_depletion_counts := fun it =>
        if it = p.1 then a.agg_depletion_counts it + 1 else a.agg_depletion_counts it }) agg

/-- `_aggregate_lifecycle_rates`. -/
def aggregate_lifecycle_rates (agg : SimulationAggregator) (hist : List Inv) :
    SimulationAggregator :=
  hist.foldl (fun a st =>
    if 0 < total_remaining st then
      { a with
        total_lifecycle_steps := a.total_lifecycle_steps + 1,
        agg_lifecycle_rates := fun it =>
          a.agg_lifecycle_rates it + (getCount st it : ℚ) / (total_remaining st : ℚ) }
    else a) agg

/-- `add_result`: bump the run counter and fold the four partial results in. -/
def add_result (agg : SimulationAggregator) (result : SimulationResult) :
    SimulationAggregator :=
  let a0 := { agg with num_runs := agg.num_runs + 1 }
  let a1 := aggregate_snapshots a0 result.state_history
  let a2 := aggregate_customer_outcomes a1 result.customer_outcomes
  let a3 := aggregate_depletion_points a2 result.depletion_points
  aggregate_lifecycle_rates a3 result.state_history

/-- The populated final-report dict of `calculate_final_report`.
`avg_pulls_to_depletion` is `Option ℚ`: `none` models the `float('inf')`
sentinel used when an item was never observed to deplete. -/
structure FinalReport where
  snapshots : Level → Item → ℚ
  overall_lifecycle_rates : Item → ℚ
  success_rate_by_item : Item → ℚ
  avg_pulls_to_depletion : Item → Option ℚ
  avg_pulls_successful : ℚ
  avg_pulls_failed : ℚ
  total_successes_per_item : Item → Nat
  success_by_pull_count : Item → Nat → Nat
  rate_distributions : Level → Item → List ℚ

/-- Possible observable results of `calculate_final_report`: a raised Python
exception (this function has no raise path, the constructor exists so that
the absence of an exception is expressible), the empty dict returned when
`num_runs == 0`, or the populated report dict. -/
inductive FinalizeResult : Type where
  | raised (msg : String)
  | emptyReport
  | report (r : FinalReport)

/-- `calculate_final_report`: returns `{}` when `num_runs == 0`, otherwise
the populated averages/rates dict. -/
def calculate_final_report (agg : SimulationAggregator) : FinalizeResult :=
  if agg.num_runs = 0 then FinalizeResult.emptyReport
  else FinalizeResult.report
    { snapshots := fun lv it => (agg.agg_snapshots lv it : ℚ) / (agg.num_runs : ℚ)
      overall_lifecycle_rates := fun it =>
        if 0 < agg.total_lifecycle_steps then
          agg.agg_lifecycle_rates it / (agg.total_lifecycle_steps : ℚ)
        else 0
      success_rate_by_item := fun it =>
        if 0 < agg.agg_success_by_item_success it + agg.agg_success_by_item_failure it then
          (agg.agg_success_by_item_success it : ℚ) /
            ((agg.agg_success_by_item_success it + agg.agg_success_by_item_failure it : Nat) : ℚ)
        else 0
      avg_pulls_to_depletion := fun it =>
        if 0 < agg.agg_depletion_counts it then
          some ((agg.agg_depletion_pulls it : ℚ) / (agg.agg_depletion_counts it : ℚ))
        else none
      avg_pulls_successful :=
        if 0 < agg.total_successful_customers then
          (agg.agg_pulls_successful : ℚ) / (agg.total_successful_customers : ℚ)
        else 0
      avg_pulls_failed :=
        if 0 < agg.total_failed_customers then
          (agg.agg_pulls_failed : ℚ) / (agg.total_failed_customers : ℚ)
        else 0
      total_successes_per_item := agg.agg_success_by_item_success
      success_by_pull_count := agg.agg_success_by_pull_count
      rate_distributions := agg.snapshot_rate_distributions }

/-- Field-wise sum of two aggregator states (numeric fields added, rate-sample
lists concatenated), following the spec's words "single-lifetime aggregates
combined by summation"; the configured `max_pull_limit` is shared. -/
def combineAggregates (a b : SimulationAggregator) : SimulationAggregator where
  num_runs := a.num_runs + b.num_runs
  max_pull_limit := a.max_pull_limit
  agg_snapshots := fun l it => a.agg_snapshots l it + b.agg_snapshots l it
  agg_success_by_item_success := fun it =>
    a.agg_success_by_item_success it + b.agg_success_by_item_success it
  agg_success_by_item_failure := fun it =>
    a.agg_success_by_item_failure it + b.agg_success_by_item_failure it
  agg_success_by_pull_count := fun it p =>
    a.agg_success_by_pull_count it p + b.agg_success_by_pull_count it p
  agg_depletion_pulls := fun it => a.agg_depletion_pulls it + b.agg_depletion_pulls it
  agg_depletion_counts := fun it => a.agg_depletion_counts it + b.agg_depletion_counts it
  agg_pulls_successful := a.agg_pulls_successful + b.agg_pulls_successful
  agg_pulls_failed := a.agg_pulls_failed + b.agg_pulls_failed
  total_successful_customers := a.total_successful_customers + b.total_successful_customers
  total_failed_customers := a.total_failed_customers + b.total_failed_customers
  agg_lifecycle_rates := fun it => a.agg_lifecycle_rates it + b.agg_lifecycle_rates it
  total_lifecycle_steps := a.total_lifecycle_steps + b.total_lifecycle_steps
  snapshot_rate_distributions := fun l it =>
    a.snapshot_rate_distributions l it ++ b.snapshot_rate_distributions l it

/-- The outputs of the significance analysis (spec §4.6 `test_rate`). -/
structure SignificanceResult where
  t_statistic : ℚ
  p_value : ℚ
  observed_mean : ℚ

/-- The core of `_print_significance_analysis` (lines 315–323): return early
(`none`, the "Not enough data" report) when fewer than 2 rate samples exist,
otherwise run the one-sample t-test and compute the observed mean.  The
third-party `scipy.stats.ttest_1samp` is an abstract parameter `ttest`
yielding the pair `(t_statistic, p_value)`. -/
def significance_analysis (ttest : List ℚ → ℚ → ℚ × ℚ)
    (observed_rates : List ℚ) (baseline_rate : ℚ) : Option SignificanceResult :=
  if observed_rates = [] ∨ observed_rates.length < 2 then none
  else some
    { t_statistic := (ttest observed_rates baseline_rate).1
      p_value := (ttest observed_rates baseline_rate).2
      observed_mean := observed_rates.sum / (observed_rates.length : ℚ) }

/-- The concrete oracle behind the first counterexample lifetime: every
customer seeks the rare item with patience 20, and every pull removes the
first capsule of the pool. -/
def oracleA : Oracle := ⟨fun _ => 4, fun _ => 5, fun _ => 0⟩

/-- The concrete oracle behind the second counterexample lifetime: every
customer seeks the hamster sticker with patience 10, and every pull removes
the last capsule of the pool. -/
def oracleB : Oracle := ⟨fun _ => 3, fun _ => 4, fun k => 50 - k⟩

/-- Invariant of the depletion dict at global pull count `counter`: keys are
unique, every recorded pull index marks exactly the pull at which that item's
count first reached zero, and unrecorded items still have capsules left. -/
def DepInv (o : Oracle) (dep : List (Item × Nat)) (counter : Nat) : Prop :=
  (dep.map Prod.fst).Nodup ∧
  (∀ it n, (it, n) ∈ dep → 1 ≤ n ∧ n ≤ counter ∧
    getCount (invAfter o n) it = 0 ∧ 0 < getCount (invAfter o (n - 1)) it) ∧
  (∀ it, it ∉ dep.map Prod.fst → 0 < getCount (invAfter o counter) it)

/-- Total number of tallies stored in the per-pull-position success
histogram, over its key set `range(1, max_pull_limit + 1)`. -/
def success_histogram_total (agg : SimulationAggregator) : Nat :=
  (ITEMS.map (fun it => ((List.range' 1 agg.max_pull_limit).map
    (agg.agg_success_by_pull_count it)).sum)).sum

/-- Number of successful sessions in an outcome list. -/
def success_count (outs : List CustomerOutcome) : Nat :=
  (outs.filter (fun oc => oc.got_item)).length

attribute [ext] SimulationAggregator

/-! ### Inventory lemmas -/

theorem total_remaining_eq (inv : Inv) :
    total_remaining inv = inv.cat + inv.dog + inv.rabbit + inv.hamster + inv.rare := by
  simp [total_remaining, ITEMS, getCount]
  omega

theorem getCount_decrement (inv : Inv) (it j : Item) :
    getCount (decrement inv it) j = if j = it then getCount inv it - 1 else getCount inv j := by
  cases it <;> cases j <;> simp [getCount, decrement]

theorem mem_capsule_pool (inv : Inv) (it : Item) :
    it ∈ capsule_pool inv ↔ 0 < getCount inv it := by
  cases it <;>
    simp [capsule_pool, ITEMS, List.mem_replicate, getCount, Nat.pos_iff_ne_zero]

theorem capsule_pool_length (inv : Inv) :
    (capsule_pool inv).length = total_remaining inv := by
  simp [capsule_pool, ITEMS, total_remaining]

theorem capsule_pool_count (inv : Inv) (it : Item) :
    (capsule_pool inv).count it = getCount inv it := by
  cases it <;>
    simp [capsule_pool, ITEMS, List.count_append, List.count_replicate, getCount]

theorem pullOnce_fst_mem (inv : Inv) (r : Nat) (h : 0 < total_remaining inv) :
    (pullOnce inv r).1 ∈ capsule_pool inv := by
  have hlen : 0 < (capsule_pool inv).length := by rw [capsule_pool_length]; exact h
  have hr : r % (capsule_pool inv).length < (capsule_pool inv).length :=
    Nat.mod_lt _ hlen
  simp only [pullOnce]
  rw [List.getD_eq_get? , List.get?_eq_get hr]
  exact List.get_mem _ _ _

theorem total_decrement (inv : Inv) (it : Item) (h : 0 < getCount inv it) :
    total_remaining (decrement inv it) + 1 = total_remaining inv := by
  cases it <;> simp [getCount] at h <;>
    simp [total_remaining_eq, decrement] <;> omega

theorem pullOnce_total (inv : Inv) (r : Nat) (h : 0 < total_remaining inv) :
    total_remaining (pullOnce inv r).2 + 1 = total_remaining inv := by
  have hm := pullOnce_fst_mem inv r h
  rw [mem_capsule_pool] at hm
  simpa [pullOnce] using total_decrement inv (pullOnce inv r).1 hm

theorem getCount_pullOnce_ne (inv : Inv) (r : Nat) (j : Item)
    (h : j ≠ (pullOnce inv r).1) :
    getCount (pullOnce inv r).2 j = getCount inv j := by
  have : (pullOnce inv r).2 = decrement inv (pullOnce inv r).1 := rfl
  rw [this, getCount_decrement, if_neg h]

theorem total_invAfter (o : Oracle) (k : Nat) :
    total_remaining (invAfter o k) = TOTAL_CAPSULES - k := by
  induction k with
  | zero => simp [invAfter]; decide
  | succ k ih =>
    rw [invAfter]
    by_cases h : total_remaining (invAfter o k) = 0
    · rw [if_pos h, ih]
      omega
    · rw [if_neg h]
      have := pullOnce_total (invAfter o k) (o.drawIdx (k + 1)) (Nat.pos_of_ne_zero h)
      omega

theorem getCount_invAfter_succ_le (o : Oracle) (k : Nat) (it : Item) :
    getCount (invAfter o (k + 1)) it ≤ getCount (invAfter o k) it := by
  rw [invAfter]
  by_cases h : total_remaining (invAfter o k) = 0
  · rw [if_pos h]
  · rw [if_neg h]
    have : (pullOnce (invAfter o k) (o.drawIdx (k + 1))).2
        = decrement (invAfter o k) (pullOnce (invAfter o k) (o.drawIdx (k + 1))).1 := rfl
    rw [this, getCount_decrement]
    split
    · next heq => rw [heq]; omega
    · omega

theorem getCount_invAfter_le (o : Oracle) {m n : Nat} (h : m ≤ n) (it : Item) :
    getCount (invAfter o n) it ≤ getCount (invAfter o m) it := by
  induction n with
  | zero => simp_all
  | succ n ih =>
    rcases Nat.lt_or_ge m (n + 1) with hlt | hge
    · exact le_trans (getCount_invAfter_succ_le o n it) (ih (by omega))
    · have : m = n + 1 := by omega
      subst this
      rfl

theorem getCount_le_total (inv : Inv) (it : Item) :
    getCount inv it ≤ total_remaining inv := by
  cases it <;> simp [getCount, total_remaining_eq] <;> omega

theorem total_eq_zero_iff (inv : Inv) :
    total_remaining inv = 0 ↔ ∀ it, getCount inv it = 0 := by
  constructor
  · intro h it
    have := getCount_le_total inv it
    omega
  · intro h
    have hc := h Item.catKeychain
    have hd := h Item.dogKeychain
    have hr := h Item.rabbitFigurine
    have hh := h Item.hamsterSticker
    have hg := h Item.rareGoldCat
    simp [getCount] at hc hd hr hh hg
    simp [total_remaining_eq, hc, hd, hr, hh, hg]

/-! ### Depletion-record invariant and session/lifetime loop lemmas -/

theorem DepInv_nil (o : Oracle) : DepInv o [] 0 := by
  refine ⟨List.nodup_nil, by simp, fun it _ => ?_⟩
  cases it <;> simp [invAfter, initial_contents, getCount, CAPSULES_PER_ITEM]

theorem DepInv_step (o : Oracle) (dep : List (Item × Nat)) (counter : Nat)
    (hI : DepInv o dep counter)
    (h0 : ¬ total_remaining (invAfter o counter) = 0) :
    DepInv o
      (if getCount (pullOnce (invAfter o counter) (o.drawIdx (counter + 1))).2
            (pullOnce (invAfter o counter) (o.drawIdx (counter + 1))).1 = 0 ∧
          (pullOnce (invAfter o counter) (o.drawIdx (counter + 1))).1 ∉ dep.map Prod.fst
       then dep ++ [((pullOnce (invAfter o counter) (o.drawIdx (counter + 1))).1, counter + 1)]
       else dep)
      (counter + 1) := by
  obtain ⟨hnd, hmem, hout⟩ := hI
  have hinv' : invAfter o (counter + 1)
      = (pullOnce (invAfter o counter) (o.drawIdx (counter + 1))).2 := by
    rw [invAfter, if_neg h0]
  have hp : 0 < getCount (invAfter o counter)
      (pullOnce (invAfter o counter) (o.drawIdx (counter + 1))).1 := by
    rw [← mem_capsule_pool]
    exact pullOnce_fst_mem _ _ (Nat.pos_of_ne_zero h0)
  set p := (pullOnce (invAfter o counter) (o.drawIdx (counter + 1))).1 with hpdef
  split
  · next hcond =>
    obtain ⟨hzero, hnotin⟩ := hcond
    refine ⟨?_, ?_, ?_⟩
    · have hkeys : ((dep ++ [(p, counter + 1)]).map Prod.fst) = dep.map Prod.fst ++ [p] := by
        simp
      rw [hkeys, List.nodup_append]
      refine ⟨hnd, List.nodup_singleton _, ?_⟩
      intro a ha hb
      rw [List.mem_singleton] at hb
      subst hb
      exact hnotin ha
    · intro it n hin
      rcases List.mem_append.1 hin with hold | hnew
      · obtain ⟨h1, h2, h3, h4⟩ := hmem it n hold
        exact ⟨h1, by omega, h3, h4⟩
      · rw [List.mem_singleton, Prod.mk.injEq] at hnew
        obtain ⟨rfl, rfl⟩ := hnew
        refine ⟨by omega, le_refl _, ?_, ?_⟩
        · rw [hinv']; exact hzero
        · simpa using hp
    · intro it hit
      have hkeys : ((dep ++ [(p, counter + 1)]).map Prod.fst) = dep.map Prod.fst ++ [p] := by
        simp
      rw [hkeys, List.mem_append, List.mem_singleton] at hit
      push_neg at hit
      obtain ⟨hit1, hit2⟩ := hit
      have := hout it hit1
      rw [hinv']
      rwa [getCount_pullOnce_ne _ _ _ hit2]
  · next hcond =>
    refine ⟨hnd, ?_, ?_⟩
    · intro it n hin
      obtain ⟨h1, h2, h3, h4⟩ := hmem it n hin
      exact ⟨h1, by omega, h3, h4⟩
    · intro it hit
      rw [hinv']
      by_cases hpe : it = p
      · subst hpe
        have : ¬ getCount (pullOnce (invAfter o counter) (o.drawIdx (counter + 1))).2 p = 0 := by
          intro hz
          exact hcond ⟨hz, hit⟩
        omega
      · rw [getCount_pullOnce_ne _ _ _ hpe]
        exact hout it hit

theorem sessionLoop_spec (o : Oracle) (desired : Item) :
    ∀ (n counter : Nat) (dep : List (Item × Nat)) (pulls : Nat),
      DepInv o dep counter →
      ∃ k,
        (sessionLoop o desired n (invAfter o counter) counter dep pulls).pulls = pulls + k ∧
        (sessionLoop o desired n (invAfter o counter) counter dep pulls).counter = counter + k ∧
        k ≤ n ∧ k ≤ total_remaining (invAfter o counter) ∧
        (sessionLoop o desired n (invAfter o counter) counter dep pulls).inv
          = invAfter o (counter + k) ∧
        DepInv o (sessionLoop o desired n (invAfter o counter) counter dep pulls).depletion
          (counter + k) ∧
        (0 < total_remaining (invAfter o counter) → 1 ≤ n → 1 ≤ k) ∧
        ((sessionLoop o desired n (invAfter o counter) counter dep pulls).got = true → 1 ≤ k) := by
  intro n
  induction n with
  | zero =>
    intro counter dep pulls hI
    exact ⟨0, rfl, rfl, le_refl _, Nat.zero_le _, rfl, hI, by omega, by simp [sessionLoop]⟩
  | succ n ih =>
    intro counter dep pulls hI
    rw [sessionLoop]
    by_cases h0 : total_remaining (invAfter o counter) = 0
    · rw [if_pos h0]
      exact ⟨0, rfl, rfl, Nat.zero_le _, Nat.zero_le _, rfl, hI, by omega, by simp⟩
    · rw [if_neg h0]
      have hinv' : invAfter o (counter + 1)
          = (pullOnce (invAfter o counter) (o.drawIdx (counter + 1))).2 := by
        rw [invAfter, if_neg h0]
      have htot : total_remaining (invAfter o counter) = TOTAL_CAPSULES - counter :=
        total_invAfter o counter
      have htot' : total_remaining (invAfter o (counter + 1)) = TOTAL_CAPSULES - (counter + 1) :=
        total_invAfter o (counter + 1)
      have htdec := pullOnce_total (invAfter o counter) (o.drawIdx (counter + 1))
        (Nat.pos_of_ne_zero h0)
      have hdep' := DepInv_step o dep counter hI h0
      by_cases hgot : (pullOnce (invAfter o counter) (o.drawIdx (counter + 1))).1 = desired
      · rw [if_pos hgot]
        refine ⟨1, rfl, rfl, by omega, by omega, by rw [hinv'], ?_, fun _ _ => le_refl 1,
          fun _ => le_refl 1⟩
        exact hdep'
      · rw [if_neg hgot]
        rw [← hinv'] at hdep' ⊢
        obtain ⟨k, hk1, hk2, hk3, hk4, hk5, hk6, hk7, hk8⟩ :=
          ih (counter + 1) _ (pulls + 1) hdep'
        refine ⟨k + 1, ?_, ?_, by omega, ?_, ?_, ?_, fun _ _ => by omega, fun _ => by omega⟩
        · rw [hk1]; omega
        · rw [hk2]; omega
        · rw [htot, htot'] at *
          omega
        · rw [hk5]; congr 1; omega
        · have hco : counter + 1 + k = counter + (k + 1) := by omega
          rwa [hco] at hk6

theorem max_pull_limit_eq : max_pull_limit = 20 := by decide

theorem pull_distribution_keys (d : Item) :
    (pull_distribution d).map Prod.fst = [1, 2, 3, 5, 10, 20] := by
  unfold pull_distribution
  split <;> rfl

theorem choices1_pull_keys (d : Item) (r : Nat) :
    1 ≤ choices1 ((pull_distribution d).map Prod.fst) 1 r ∧
    choices1 ((pull_distribution d).map Prod.fst) 1 r ≤ 20 := by
  rw [pull_distribution_keys]
  have h6 : r % 6 < 6 := Nat.mod_lt _ (by norm_num)
  simp only [choices1, List.length_cons, List.length_nil]
  set m := r % 6 with hm
  interval_cases m <;> simp [List.getD]

theorem chain'_concat {α : Type} {R : α → α → Prop} {l : List α} {a b : α}
    (hc : List.Chain' R l) (hl : l.getLast? = some a) (hr : R a b) :
    List.Chain' R (l ++ [b]) := by
  rw [List.chain'_append]
  refine ⟨hc, List.chain'_singleton b, ?_⟩
  intro x hx y hy
  rw [hl, Option.mem_some_iff] at hx
  simp at hy
  subst hx
  subst hy
  exact hr

/-- Master invariant of the outer customer loop: with enough fuel the run
drains the machine, the session-boundary history is non-increasing in total
and bounded by `TOTAL_CAPSULES`, the global pull count equals the sum of
session pull counts and ends at a value whose inventory is empty, the
depletion invariant holds at the end, and every recorded outcome has a pull
count between 1 (for successes) and `max_pull_limit`. -/
theorem simLoop_spec (o : Oracle) :
    ∀ (fuel counter : Nat) (hist : List Inv) (outs : List CustomerOutcome)
      (dep : List (Item × Nat)) (sess : Nat),
      total_remaining (invAfter o counter) ≤ fuel →
      counter ≤ TOTAL_CAPSULES →
      DepInv o dep counter →
      counter = (outs.map CustomerOutcome.pulls_taken).sum →
      hist.getLast? = some (invAfter o counter) →
      List.Chain' (fun a b => total_remaining b ≤ total_remaining a) hist →
      (∀ st ∈ hist, total_remaining st ≤ TOTAL_CAPSULES) →
      (∀ oc ∈ outs, oc.pulls_taken ≤ max_pull_limit ∧
        (oc.got_item = true → 1 ≤ oc.pulls_taken)) →
      ∃ cF, cF ≤ TOTAL_CAPSULES ∧
        total_remaining (invAfter o cF) = 0 ∧
        (simLoop o fuel (invAfter o counter) hist outs dep counter sess).state_history.getLast?
          = some (invAfter o cF) ∧
        (∃ ext, (simLoop o fuel (invAfter o counter) hist outs dep counter sess).state_history
          = hist ++ ext) ∧
        List.Chain' (fun a b => total_remaining b ≤ total_remaining a)
          (simLoop o fuel (invAfter o counter) hist outs dep counter sess).state_history ∧
        (∀ st ∈ (simLoop o fuel (invAfter o counter) hist outs dep counter sess).state_history,
          total_remaining st ≤ TOTAL_CAPSULES) ∧
        ((simLoop o fuel (invAfter o counter) hist outs dep counter sess).customer_outcomes.map
          CustomerOutcome.pulls_taken).sum = cF ∧
        DepInv o (simLoop o fuel (invAfter o counter) hist outs dep counter sess).depletion_points
          cF ∧
        (∀ oc ∈ (simLoop o fuel (invAfter o counter) hist outs dep counter sess).customer_outcomes,
          oc.pulls_taken ≤ max_pull_limit ∧ (oc.got_item = true → 1 ≤ oc.pulls_taken)) := by
  intro fuel
  induction fuel with
  | zero =>
    intro counter hist outs dep sess hfuel hcb hI hsum hlast hchain hbound houts
    have h0 : total_remaining (invAfter o counter) = 0 := by omega
    exact ⟨counter, hcb, h0, hlast, ⟨[], by simp [simLoop]⟩, hchain, hbound, hsum.symm, hI, houts⟩
  | succ fuel ih =>
    intro counter hist outs dep sess hfuel hcb hI hsum hlast hchain hbound houts
    simp only [simLoop]
    by_cases h0 : total_remaining (invAfter o counter) = 0
    · rw [if_pos h0]
      exact ⟨counter, hcb, h0, hlast, ⟨[], by simp⟩, hchain, hbound, hsum.symm, hI, houts⟩
    · rw [if_neg h0]
      set desired := choices1 (ITEM_POPULARITY.map Prod.fst) Item.catKeychain
        (o.desiredIdx sess) with hdes
      set maxPulls := choices1 ((pull_distribution desired).map Prod.fst) 1
        (o.patienceIdx sess) with hmp
      obtain ⟨hmp1, hmp2⟩ := choices1_pull_keys desired (o.patienceIdx sess)
      rw [← hmp] at hmp1 hmp2
      obtain ⟨k, hk1, hk2, hk3, hk4, hk5, hk6, hk7, hk8⟩ :=
        sessionLoop_spec o desired maxPulls counter dep 0 hI
      set s := sessionLoop o desired maxPulls (invAfter o counter) counter dep 0 with hs
      have hk : 1 ≤ k := hk7 (Nat.pos_of_ne_zero h0) hmp1
      have htotc : total_remaining (invAfter o counter) = TOTAL_CAPSULES - counter :=
        total_invAfter o counter
      have htots : total_remaining (invAfter o (counter + k)) = TOTAL_CAPSULES - (counter + k) :=
        total_invAfter o (counter + k)
      have hfuel' : total_remaining (invAfter o (counter + k)) ≤ fuel := by omega
      have hcb' : counter + k ≤ TOTAL_CAPSULES := by omega
      have hsum' : counter + k
          = (((outs ++ [(⟨desired, s.got, s.pulls⟩ : CustomerOutcome)]).map CustomerOutcome.pulls_taken).sum) := by
        rw [List.map_append, List.sum_append]
        simp only [List.map_cons, List.map_nil, List.sum_cons, List.sum_nil]
        rw [← hsum]
        show counter + k = counter + (s.pulls + 0)
        rw [hk1]
        omega
      have hlast' : (hist ++ [invAfter o (counter + k)]).getLast?
          = some (invAfter o (counter + k)) := List.getLast?_concat _
      have hchain' : List.Chain' (fun a b => total_remaining b ≤ total_remaining a)
          (hist ++ [invAfter o (counter + k)]) := by
        refine chain'_concat hchain hlast ?_
        rw [htots, htotc]
        omega
      have hbound' : ∀ st ∈ hist ++ [invAfter o (counter + k)],
          total_remaining st ≤ TOTAL_CAPSULES := by
        intro st hst
        rcases List.mem_append.1 hst with h | h
        · exact hbound st h
        · rw [List.mem_singleton] at h
          subst h
          rw [htots]
          omega
      have houts' : ∀ oc ∈ outs ++ [(⟨desired, s.got, s.pulls⟩ : CustomerOutcome)],
          oc.pulls_taken ≤ max_pull_limit ∧ (oc.got_item = true → 1 ≤ oc.pulls_taken) := by
        intro oc hoc
        rcases List.mem_append.1 hoc with h | h
        · exact houts oc h
        · rw [List.mem_singleton] at h
          subst h
          rw [max_pull_limit_eq]
          refine ⟨?_, ?_⟩
          · show s.pulls ≤ 20
            rw [hk1]
            omega
          · intro hg
            have := hk8 hg
            show 1 ≤ s.pulls
            rw [hk1]
            omega
      rw [hk2, hk5]
      obtain ⟨cF, hA, hB, hC, ⟨ext, hext⟩, hD, hE, hF, hG, hH⟩ :=
        ih (counter + k) (hist ++ [invAfter o (counter + k)])
          (outs ++ [(⟨desired, s.got, s.pulls⟩ : CustomerOutcome)])
          s.depletion (sess + 1) hfuel' hcb' hk6 hsum' hlast' hchain' hbound' houts'
      exact ⟨cF, hA, hB, hC, ⟨[invAfter o (counter + k)] ++ ext,
        by rw [hext, List.append_assoc]⟩, hD, hE, hF, hG, hH⟩

/-- Consolidated facts about one full lifetime. -/
theorem run_single_simulation_spec (o : Oracle) :
    ∃ cF, cF = TOTAL_CAPSULES ∧
      total_remaining (invAfter o cF) = 0 ∧
      (run_single_simulation o).state_history.getLast? = some (invAfter o cF) ∧
      (∃ ext, (run_single_simulation o).state_history = initial_contents :: ext) ∧
      List.Chain' (fun a b => total_remaining b ≤ total_remaining a)
        (run_single_simulation o).state_history ∧
      (∀ st ∈ (run_single_simulation o).state_history,
        total_remaining st ≤ TOTAL_CAPSULES) ∧
      ((run_single_simulation o).customer_outcomes.map CustomerOutcome.pulls_taken).sum = cF ∧
      DepInv o (run_single_simulation o).depletion_points cF ∧
      (∀ oc ∈ (run_single_simulation o).customer_outcomes,
        oc.pulls_taken ≤ max_pull_limit ∧ (oc.got_item = true → 1 ≤ oc.pulls_taken)) := by
  have h0 : invAfter o 0 = initial_contents := rfl
  obtain ⟨cF, hA, hB, hC, ⟨ext, hext⟩, hD, hE, hF, hG, hH⟩ :=
    simLoop_spec o TOTAL_CAPSULES 0 [initial_contents] [] [] 0
      (by rw [h0]; decide) (by decide) (DepInv_nil o) rfl (by rw [h0]; rfl)
      (List.chain'_singleton _) (by intro st hst; rw [List.mem_singleton] at hst; subst hst; decide)
      (by simp)
  have hrun : run_single_simulation o
      = simLoop o TOTAL_CAPSULES (invAfter o 0) [initial_contents] [] [] 0 0 := rfl
  have hcf : cF = TOTAL_CAPSULES := by
    have := total_invAfter o cF
    omega
  exact ⟨cF, hcf, hB, by rw [hrun]; exact hC, ⟨ext, by rw [hrun, hext]; rfl⟩,
    by rw [hrun]; exact hD, by rw [hrun]; exact hE, by rw [hrun]; exact hF,
    by rw [hrun]; exact hG, by rw [hrun]; exact hH⟩

/-- C3: every lifetime terminates; each draw removes exactly one capsule, the
session-boundary history of inventory totals is non-increasing, the whole run
makes exactly `TOTAL_CAPSULES` draws (hence ends within `TOTAL_CAPSULES`
draws), and the final state has total remaining 0. -/
theorem lifetime_terminates (o : Oracle) :
    (∀ inv r, 0 < total_remaining inv →
      total_remaining (pullOnce inv r).2 + 1 = total_remaining inv) ∧
    List.Chain' (fun a b => total_remaining b ≤ total_remaining a)
      (run_single_simulation o).state_history ∧
    ((run_single_simulation o).customer_outcomes.map CustomerOutcome.pulls_taken).sum
      = TOTAL_CAPSULES ∧
    (∃ last, (run_single_simulation o).state_history.getLast? = some last ∧
      total_remaining last = 0) := by
  obtain ⟨cF, hcf, hB, hC, _, hD, _, hF, _, _⟩ := run_single_simulation_spec o
  subst hcf
  exact ⟨pullOnce_total, hD, hF, ⟨invAfter o TOTAL_CAPSULES, hC, hB⟩⟩

/-- Witness for the hypothesis-bearing part of `lifetime_terminates`: one
concrete draw from the full machine removes exactly one capsule. -/
theorem lifetime_terminates_witness :
    total_remaining (pullOnce initial_contents 0).2 + 1 = total_remaining initial_contents :=
  (lifetime_terminates oracleA).1 initial_contents 0 (by decide)

/-- C4: at the end of every lifetime the depletion record holds every
configured item exactly once (unique keys, every item present), and each
item's recorded index `n` is a 1-based global pull index at which the item's
remaining count had just reached zero for the first time (`> 0` after pull
`n - 1`, `= 0` after pull `n`). -/
theorem depletion_record_complete (o : Oracle) :
    ((run_single_simulation o).depletion_points.map Prod.fst).Nodup ∧
    ∀ it : Item, ∃ n, (it, n) ∈ (run_single_simulation o).depletion_points ∧
      1 ≤ n ∧ n ≤ TOTAL_CAPSULES ∧
      getCount (invAfter o n) it = 0 ∧ 0 < getCount (invAfter o (n - 1)) it := by
  obtain ⟨cF, hcf, hB, _, _, _, _, _, hG, _⟩ := run_single_simulation_spec o
  obtain ⟨hnd, hmem, hout⟩ := hG
  refine ⟨hnd, ?_⟩
  intro it
  have hz : getCount (invAfter o cF) it = 0 := (total_eq_zero_iff _).1 hB it
  by_cases hin : it ∈ (run_single_simulation o).depletion_points.map Prod.fst
  · rw [List.mem_map] at hin
    obtain ⟨⟨it', n⟩, hpmem, hfst⟩ := hin
    simp at hfst
    subst hfst
    obtain ⟨h1, h2, h3, h4⟩ := hmem it' n hpmem
    exact ⟨n, hpmem, h1, by omega, h3, h4⟩
  · exact absurd hz (by have := hout it hin; omega)

/-! ### Snapshot-scan characterization -/

theorem snapshot_level_step_agg (st : Inv) (acc2 : SimulationAggregator × List Level)
    (lv l' : Level) (it : Item) :
    (snapshot_level_step st acc2 lv).1.agg_snapshots l' it =
      if l' = lv ∧ levelValue lv ≤ total_remaining st ∧ lv ∉ acc2.2
      then acc2.1.agg_snapshots l' it + getCount st it
      else acc2.1.agg_snapshots l' it := by
  unfold snapshot_level_step
  by_cases h1 : levelValue lv ≤ total_remaining st ∧ lv ∉ acc2.2
  · rw [if_pos h1]
    by_cases h2 : l' = lv
    · simp only [h2, h1, and_self, if_pos, true_and]
      simp [h1.1, h1.2]
    · simp [h2]
  · rw [if_neg h1]
    have hn : ¬ (l' = lv ∧ levelValue lv ≤ total_remaining st ∧ lv ∉ acc2.2) := by tauto
    rw [if_neg hn]

theorem snapshot_level_step_rates (st : Inv) (acc2 : SimulationAggregator × List Level)
    (lv l' : Level) (it : Item) :
    (snapshot_level_step st acc2 lv).1.snapshot_rate_distributions l' it =
      if l' = lv ∧ levelValue lv ≤ total_remaining st ∧ lv ∉ acc2.2
      then acc2.1.snapshot_rate_distributions l' it ++ [snapshotRate st it]
      else acc2.1.snapshot_rate_distributions l' it := by
  unfold snapshot_level_step
  by_cases h1 : levelValue lv ≤ total_remaining st ∧ lv ∉ acc2.2
  · rw [if_pos h1]
    by_cases h2 : l' = lv
    · simp only [h2, h1, and_self, if_pos, true_and]
      simp [h1.1, h1.2]
    · simp [h2]
  · rw [if_neg h1]
    have hn : ¬ (l' = lv ∧ levelValue lv ≤ total_remaining st ∧ lv ∉ acc2.2) := by tauto
    rw [if_neg hn]

theorem snapshot_level_step_snd (st : Inv) (acc2 : SimulationAggregator × List Level)
    (lv : Level) :
    (snapshot_level_step st acc2 lv).2 =
      if levelValue lv ≤ total_remaining st ∧ lv ∉ acc2.2
      then acc2.2 ++ [lv] else acc2.2 := by
  unfold snapshot_level_step
  split_ifs <;> rfl

theorem levels_fold_processed (st : Inv) (l' : Level) :
    ∀ (ls : List Level) (acc : SimulationAggregator × List Level),
      (l' ∈ (ls.foldl (snapshot_level_step st) acc).2 ↔
        l' ∈ acc.2 ∨ (l' ∈ ls ∧ levelValue l' ≤ total_remaining st)) := by
  intro ls
  induction ls with
  | nil => intro acc; simp
  | cons lv rest ih =>
    intro acc
    rw [List.foldl_cons, ih]
    rw [snapshot_level_step_snd]
    by_cases he : l' = lv
    · subst he
      by_cases hg : levelValue l' ≤ total_remaining st ∧ l' ∉ acc.2
      · rw [if_pos hg]
        simp [hg.1]
      · rw [if_neg hg]
        by_cases hp : l' ∈ acc.2
        · simp [hp]
        · have : ¬ levelValue l' ≤ total_remaining st := by tauto
          simp [hp, this]
    · by_cases hg : levelValue lv ≤ total_remaining st ∧ lv ∉ acc.2
      · rw [if_pos hg]
        simp [List.mem_append, he]
      · rw [if_neg hg]
        simp [he]

theorem levels_fold_agg_not_mem (st : Inv) (l' : Level) (it : Item) :
    ∀ (ls : List Level) (acc : SimulationAggregator × List Level), l' ∉ ls →
      (ls.foldl (snapshot_level_step st) acc).1.agg_snapshots l' it
        = acc.1.agg_snapshots l' it ∧
      (ls.foldl (snapshot_level_step st) acc).1.snapshot_rate_distributions l' it
        = acc.1.snapshot_rate_distributions l' it := by
  intro ls
  induction ls with
  | nil => intro acc _; exact ⟨rfl, rfl⟩
  | cons lv rest ih =>
    intro acc hnm
    rw [List.mem_cons] at hnm
    push_neg at hnm
    rw [List.foldl_cons]
    obtain ⟨ha, hr⟩ := ih (snapshot_level_step st acc lv) hnm.2
    rw [ha, hr, snapshot_level_step_agg, snapshot_level_step_rates]
    have hn : ¬ (l' = lv ∧ levelValue lv ≤ total_remaining st ∧ lv ∉ acc.2) := by
      intro hc
      exact hnm.1 hc.1
    rw [if_neg hn, if_neg hn]
    exact ⟨rfl, rfl⟩

theorem levels_fold_agg_mem (st : Inv) (l' : Level) (it : Item) :
    ∀ (ls : List Level) (acc : SimulationAggregator × List Level),
      ls.Nodup → l' ∈ ls →
      ((ls.foldl (snapshot_level_step st) acc).1.agg_snapshots l' it
          = (if levelValue l' ≤ total_remaining st ∧ l' ∉ acc.2
             then acc.1.agg_snapshots l' it + getCount st it
             else acc.1.agg_snapshots l' it)) ∧
      ((ls.foldl (snapshot_level_step st) acc).1.snapshot_rate_distributions l' it
          = (if levelValue l' ≤ total_remaining st ∧ l' ∉ acc.2
             then acc.1.snapshot_rate_distributions l' it ++ [snapshotRate st it]
             else acc.1.snapshot_rate_distributions l' it)) := by
  intro ls
  induction ls with
  | nil => intro acc _ hm; exact absurd hm (List.not_mem_nil l')
  | cons lv rest ih =>
    intro acc hnd hm
    rw [List.nodup_cons] at hnd
    rw [List.foldl_cons]
    by_cases he : l' = lv
    · subst he
      obtain ⟨ha, hr⟩ := levels_fold_agg_not_mem st l' it rest
        (snapshot_level_step st acc l') hnd.1
      rw [ha, hr]
      by_cases hg : levelValue l' ≤ total_remaining st ∧ l' ∉ acc.2
      · simp [snapshot_level_step, hg, List.mem_append]
      · simp [snapshot_level_step, hg]
    · rw [List.mem_cons] at hm
      rcases hm with hm | hm
      · exact absurd hm he
      · obtain ⟨ha, hr⟩ := ih (snapshot_level_step st acc lv) hnd.2 hm
        rw [ha, hr]
        by_cases hg : levelValue lv ≤ total_remaining st ∧ lv ∉ acc.2
        · simp [snapshot_level_step, hg, List.mem_append, he]
        · simp [snapshot_level_step, hg]

theorem snapshot_step_agg (st : Inv) (acc : SimulationAggregator × List Level)
    (l' : Level) (it : Item) :
    (snapshot_step st acc).1.agg_snapshots l' it =
      (if levelValue l' ≤ total_remaining st ∧ l' ∉ acc.2
       then acc.1.agg_snapshots l' it + getCount st it
       else acc.1.agg_snapshots l' it) ∧
    (snapshot_step st acc).1.snapshot_rate_distributions l' it =
      (if levelValue l' ≤ total_remaining st ∧ l' ∉ acc.2
       then acc.1.snapshot_rate_distributions l' it ++ [snapshotRate st it]
       else acc.1.snapshot_rate_distributions l' it) := by
  apply levels_fold_agg_mem
  · decide
  · cases l' <;> decide

theorem snapshot_step_processed (st : Inv) (acc : SimulationAggregator × List Level)
    (l' : Level) :
    l' ∈ (snapshot_step st acc).2 ↔ l' ∈ acc.2 ∨ levelValue l' ≤ total_remaining st := by
  unfold snapshot_step
  rw [levels_fold_processed]
  have : l' ∈ SNAPSHOT_LEVELS := by cases l' <;> decide
  simp [this]

theorem scan_fold_frozen (l' : Level) (it : Item) :
    ∀ (L : List Inv) (acc : SimulationAggregator × List Level), l' ∈ acc.2 →
      ((L.foldl (fun a st => snapshot_step st a) acc).1.agg_snapshots l' it
        = acc.1.agg_snapshots l' it) ∧
      ((L.foldl (fun a st => snapshot_step st a) acc).1.snapshot_rate_distributions l' it
        = acc.1.snapshot_rate_distributions l' it) := by
  intro L
  induction L with
  | nil => intro acc _; exact ⟨rfl, rfl⟩
  | cons st0 L ih =>
    intro acc hp
    rw [List.foldl_cons]
    obtain ⟨ha, hr⟩ := ih (snapshot_step st0 acc) ((snapshot_step_processed st0 acc l').2
      (Or.inl hp))
    rw [ha, hr]
    obtain ⟨ha2, hr2⟩ := snapshot_step_agg st0 acc l' it
    rw [ha2, hr2]
    have hn : ¬ (levelValue l' ≤ total_remaining st0 ∧ l' ∉ acc.2) := by tauto
    rw [if_neg hn, if_neg hn]
    exact ⟨rfl, rfl⟩

theorem scan_fold_char (l' : Level) (it : Item) :
    ∀ (L : List Inv) (acc : SimulationAggregator × List Level), l' ∉ acc.2 →
      (∀ st, L.find? (fun s => decide (levelValue l' ≤ total_remaining s)) = some st →
        ((L.foldl (fun a s => snapshot_step s a) acc).1.agg_snapshots l' it
          = acc.1.agg_snapshots l' it + getCount st it) ∧
        ((L.foldl (fun a s => snapshot_step s a) acc).1.snapshot_rate_distributions l' it
          = acc.1.snapshot_rate_distributions l' it ++ [snapshotRate st it])) ∧
      (L.find? (fun s => decide (levelValue l' ≤ total_remaining s)) = none →
        ((L.foldl (fun a s => snapshot_step s a) acc).1.agg_snapshots l' it
          = acc.1.agg_snapshots l' it) ∧
        ((L.foldl (fun a s => snapshot_step s a) acc).1.snapshot_rate_distributions l' it
          = acc.1.snapshot_rate_distributions l' it)) := by
  intro L
  induction L with
  | nil =>
    intro acc _
    exact ⟨fun st hst => by simp [List.find?] at hst, fun _ => ⟨rfl, rfl⟩⟩
  | cons st0 L ih =>
    intro acc hnp
    by_cases hpred : levelValue l' ≤ total_remaining st0
    · have hfind : (st0 :: L).find? (fun s => decide (levelValue l' ≤ total_remaining s))
          = some st0 := List.find?_cons_of_pos _ (by simpa using hpred)
      refine ⟨?_, ?_⟩
      · intro st hst
        rw [hfind, Option.some.injEq] at hst
        subst hst
        rw [List.foldl_cons]
        obtain ⟨ha, hr⟩ := scan_fold_frozen l' it L (snapshot_step st0 acc)
          ((snapshot_step_processed st0 acc l').2 (Or.inr hpred))
        rw [ha, hr]
        obtain ⟨ha2, hr2⟩ := snapshot_step_agg st0 acc l' it
        rw [ha2, hr2, if_pos ⟨hpred, hnp⟩, if_pos ⟨hpred, hnp⟩]
        exact ⟨rfl, rfl⟩
      · intro hst
        rw [hfind] at hst
        exact absurd hst (by simp)
    · have hfind : (st0 :: L).find? (fun s => decide (levelValue l' ≤ total_remaining s))
          = L.find? (fun s => decide (levelValue l' ≤ total_remaining s)) :=
        List.find?_cons_of_neg _ (by simpa using hpred)
      have hstep : ∀ it2, (snapshot_step st0 acc).1.agg_snapshots l' it2
            = acc.1.agg_snapshots l' it2 ∧
          (snapshot_step st0 acc).1.snapshot_rate_distributions l' it2
            = acc.1.snapshot_rate_distributions l' it2 := by
        intro it2
        obtain ⟨ha2, hr2⟩ := snapshot_step_agg st0 acc l' it2
        have hn : ¬ (levelValue l' ≤ total_remaining st0 ∧ l' ∉ acc.2) := by tauto
        rw [ha2, hr2, if_neg hn, if_neg hn]
        exact ⟨rfl, rfl⟩
      have hnp' : l' ∉ (snapshot_step st0 acc).2 := by
        rw [snapshot_step_processed]
        tauto
      obtain ⟨ihs, ihn⟩ := ih (snapshot_step st0 acc) hnp'
      refine ⟨?_, ?_⟩
      · intro st hst
        rw [hfind] at hst
        obtain ⟨ha, hr⟩ := ihs st hst
        rw [List.foldl_cons, ha, hr, (hstep it).1, (hstep it).2]
        exact ⟨rfl, rfl⟩
      · intro hst
        rw [hfind] at hst
        obtain ⟨ha, hr⟩ := ihn hst
        rw [List.foldl_cons, ha, hr, (hstep it).1, (hstep it).2]
        exact ⟨rfl, rfl⟩

/-- What `_aggregate_snapshots` adds for threshold `l'`: exactly the counts
and the single rate sample of the chronologically last state of the history
whose total remaining is `≥` the threshold's capsule count (the first such
state of the reversed history). -/
theorem aggregate_snapshots_char (agg : SimulationAggregator) (hist : List Inv)
    (l' : Level) (it : Item) (st : Inv)
    (hfind : hist.reverse.find? (fun s => decide (levelValue l' ≤ total_remaining s))
      = some st) :
    (aggregate_snapshots agg hist).agg_snapshots l' it
      = agg.agg_snapshots l' it + getCount st it ∧
    (aggregate_snapshots agg hist).snapshot_rate_distributions l' it
      = agg.snapshot_rate_distributions l' it ++ [snapshotRate st it] := by
  exact (scan_fold_char l' it hist.reverse (agg, []) (by simp)).1 st hfind

theorem run_find_capture (o : Oracle) (lv : Level) :
    ∃ st, (run_single_simulation o).state_history.reverse.find?
      (fun s => decide (levelValue lv ≤ total_remaining s)) = some st := by
  obtain ⟨cF, _, _, _, ⟨ext, hext⟩, _, _, _, _, _⟩ := run_single_simulation_spec o
  have hmem : initial_contents ∈ (run_single_simulation o).state_history.reverse := by
    rw [hext]
    simp
  have hpred : (fun s => decide (levelValue lv ≤ total_remaining s)) initial_contents = true := by
    cases lv <;> decide
  exact Option.isSome_iff_exists.1 (List.find?_isSome.2 ⟨initial_contents, hmem, hpred⟩)

/-- Shared characterization of one lifetime's snapshot capture, used by the
C1 and C2 results below. -/
theorem run_snapshot_capture (o : Oracle) (lv : Level) :
    ∃ st,
      (run_single_simulation o).state_history.reverse.find?
        (fun s => decide (levelValue lv ≤ total_remaining s)) = some st ∧
      st ∈ (run_single_simulation o).state_history ∧
      levelValue lv ≤ total_remaining st ∧
      (∀ it, (aggregate_snapshots (initAggregator max_pull_limit)
        (run_single_simulation o).state_history).agg_snapshots lv it = getCount st it) ∧
      (∀ it, (aggregate_snapshots (initAggregator max_pull_limit)
        (run_single_simulation o).state_history).snapshot_rate_distributions lv it
          = [snapshotRate st it]) := by
  obtain ⟨st, hfind⟩ := run_find_capture o lv
  refine ⟨st, hfind, ?_, ?_, ?_, ?_⟩
  · exact List.mem_reverse.1 (List.mem_of_find?_eq_some hfind)
  · have h0 := List.find?_some hfind
    simp only [decide_eq_true_eq] at h0
    exact h0
  · intro it
    obtain ⟨ha, _⟩ := aggregate_snapshots_char (initAggregator max_pull_limit)
      (run_single_simulation o).state_history lv it st hfind
    rw [ha]
    show 0 + getCount st it = getCount st it
    exact Nat.zero_add _
  · intro it
    obtain ⟨_, hr⟩ := aggregate_snapshots_char (initAggregator max_pull_limit)
      (run_single_simulation o).state_history lv it st hfind
    rw [hr]
    rfl

/-- C1 (amended): for every lifetime and every threshold, the aggregator
captures exactly one snapshot per threshold (each per-item rate-sample list
receives exactly one entry), and the captured counts are those of the
chronologically LAST session-boundary state whose total remaining is `≥` the
threshold's absolute capsule count (the first state of the reversed history
satisfying the test) — not the state just after the first individual draw
that brings the total to or below the threshold. -/
theorem snapshot_capture_characterization (o : Oracle) (lv : Level) :
    ∃ st,
      (run_single_simulation o).state_history.reverse.find?
        (fun s => decide (levelValue lv ≤ total_remaining s)) = some st ∧
      st ∈ (run_single_simulation o).state_history ∧
      levelValue lv ≤ total_remaining st ∧
      (∀ it, (aggregate_snapshots (initAggregator max_pull_limit)
        (run_single_simulation o).state_history).agg_snapshots lv it = getCount st it) ∧
      (∀ it, (aggregate_snapshots (initAggregator max_pull_limit)
        (run_single_simulation o).state_history).snapshot_rate_distributions lv it
          = [snapshotRate st it]) :=
  run_snapshot_capture o lv

/-- C1 counterexample: in the lifetime driven by `oracleA` the 25% threshold
(12 capsules) snapshot sums to 30 capsules, which is impossible for a
snapshot captured immediately after the first draw that brings the total to
or below 12 (such a snapshot would total at most 12). -/
theorem snapshot_capture_not_per_draw :
    (ITEMS.map ((aggregate_snapshots (initAggregator max_pull_limit)
      (run_single_simulation oracleA).state_history).agg_snapshots Level.p25)).sum = 30 ∧
    levelValue Level.p25 = 12 ∧ ¬ (30 : Nat) ≤ 12 :=
  ⟨by decide, by decide, by decide⟩

theorem items_map_sum_total (st : Inv) :
    (ITEMS.map (getCount st)).sum = total_remaining st := rfl

/-- C2 (amended): the sum of the per-item counts of every captured snapshot
is `≥` the threshold's boundary (hence strictly greater than the next lower
threshold's boundary) and `≤ TOTAL_CAPSULES`; the spec's claimed upper bound
`≤` boundary does not hold. -/
theorem snapshot_sum_bounds (o : Oracle) (lv : Level) :
    levelValue lv ≤ (ITEMS.map ((aggregate_snapshots (initAggregator max_pull_limit)
        (run_single_simulation o).state_history).agg_snapshots lv)).sum ∧
    (ITEMS.map ((aggregate_snapshots (initAggregator max_pull_limit)
        (run_single_simulation o).state_history).agg_snapshots lv)).sum ≤ TOTAL_CAPSULES ∧
    (∀ lower, nextLowerLevel lv = some lower →
      levelValue lower < (ITEMS.map ((aggregate_snapshots (initAggregator max_pull_limit)
        (run_single_simulation o).state_history).agg_snapshots lv)).sum) := by
  obtain ⟨st, hfind, hmem, hpred, hagg, _⟩ := run_snapshot_capture o lv
  have hsum : (ITEMS.map ((aggregate_snapshots (initAggregator max_pull_limit)
      (run_single_simulation o).state_history).agg_snapshots lv)).sum
      = total_remaining st := by
    rw [← items_map_sum_total st]
    have : ITEMS.map ((aggregate_snapshots (initAggregator max_pull_limit)
        (run_single_simulation o).state_history).agg_snapshots lv) = ITEMS.map (getCount st) :=
      List.map_congr_left (fun it _ => hagg it)
    rw [this]
  obtain ⟨cF, _, _, _, _, _, hbound, _, _, _⟩ := run_single_simulation_spec o
  have hle : total_remaining st ≤ TOTAL_CAPSULES := hbound st hmem
  refine ⟨by omega, by omega, ?_⟩
  intro lower hlow
  have hlt : levelValue lower < levelValue lv := by
    cases lv <;> simp [nextLowerLevel] at hlow <;> subst hlow <;> decide
  omega

/-- Witness for `snapshot_sum_bounds`: at the 50% threshold of the `oracleA`
lifetime, the next lower threshold's boundary (12) is strictly below the
captured snapshot's sum. -/
theorem snapshot_sum_bounds_witness :
    levelValue Level.p25 < (ITEMS.map ((aggregate_snapshots (initAggregator max_pull_limit)
      (run_single_simulation oracleA).state_history).agg_snapshots Level.p50)).sum :=
  (snapshot_sum_bounds oracleA Level.p50).2.2 Level.p25 rfl

/-- C2 counterexample: in the `oracleA` lifetime the 75% threshold snapshot
(boundary 37) sums to 50 capsules, refuting "sum ≤ the threshold's
boundary". -/
theorem snapshot_sum_exceeds_threshold :
    (ITEMS.map ((aggregate_snapshots (initAggregator max_pull_limit)
      (run_single_simulation oracleA).state_history).agg_snapshots Level.p75)).sum = 50 ∧
    levelValue Level.p75 = 37 ∧ ¬ (50 : Nat) ≤ 37 :=
  ⟨by decide, by decide, by decide⟩

/-! ### Draw, finalize and significance analysis claims -/

/-- C5: a draw fails exactly when total remaining is 0 (modelled as `none`,
the empty-pool failure of `random.choice`; the spec names it
`EmptyInventoryError`); the capsule pool holds one slot per remaining
physical unit — `count it = remaining it` out of `length = total` slots, so
a uniformly random index draws each item with probability proportional to
its remaining count — and a successful draw decrements exactly the drawn
item's count by 1, leaving every other count unchanged. -/
theorem draw_spec (inv : Inv) (r : Nat) :
    (draw inv r = none ↔ total_remaining inv = 0) ∧
    (capsule_pool inv).length = total_remaining inv ∧
    (∀ it, (capsule_pool inv).count it = getCount inv it) ∧
    (∀ it inv2, draw inv r = some (it, inv2) →
      getCount inv2 it + 1 = getCount inv it ∧
      ∀ j, j ≠ it → getCount inv2 j = getCount inv j) := by
  refine ⟨⟨?_, ?_⟩, capsule_pool_length inv, capsule_pool_count inv, ?_⟩
  · intro h
    by_contra h0
    have hpos : 0 < total_remaining inv := Nat.pos_of_ne_zero h0
    have hlen : 0 < (capsule_pool inv).length := by
      rw [capsule_pool_length]
      exact hpos
    have hr : r % (capsule_pool inv).length < (capsule_pool inv).length := Nat.mod_lt _ hlen
    simp only [draw] at h
    rw [List.get?_eq_get hr] at h
    simp at h
  · intro h
    have hlen : (capsule_pool inv).length = 0 := by rw [capsule_pool_length, h]
    have hnil : capsule_pool inv = [] := List.length_eq_zero.1 hlen
    simp [draw, hnil]
  · intro it inv2 h
    simp only [draw] at h
    cases hget : (capsule_pool inv).get? (r % (capsule_pool inv).length) with
    | none => rw [hget] at h; simp at h
    | some pulled =>
      rw [hget] at h
      simp only [Option.some.injEq, Prod.mk.injEq] at h
      obtain ⟨rfl, rfl⟩ := h
      have hmem := List.get?_mem hget
      rw [mem_capsule_pool] at hmem
      constructor
      · rw [getCount_decrement, if_pos rfl]
        omega
      · intro j hj
        rw [getCount_decrement, if_neg hj]

/-- Witness for `draw_spec`: drawing at index 0 from the full machine removes
one cat keychain and leaves the dog keychain count unchanged. -/
theorem draw_spec_witness :
    (getCount (decrement initial_contents Item.catKeychain) Item.catKeychain + 1
      = getCount initial_contents Item.catKeychain) ∧
    getCount (decrement initial_contents Item.catKeychain) Item.dogKeychain
      = getCount initial_contents Item.dogKeychain := by
  have h := (draw_spec initial_contents 0).2.2.2 Item.catKeychain
    (decrement initial_contents Item.catKeychain) (by decide)
  exact ⟨h.1, h.2 Item.dogKeychain (by decide)⟩

/-- C6 (amended): `calculate_final_report` returns the empty dict (not an
`InsufficientDataError`) when the run count is 0, and the populated summary
for every positive run count. -/
theorem calculate_final_report_spec :
    (∀ agg : SimulationAggregator, agg.num_runs = 0 →
      calculate_final_report agg = FinalizeResult.emptyReport) ∧
    (∀ agg : SimulationAggregator, 0 < agg.num_runs →
      ∃ rep, calculate_final_report agg = FinalizeResult.report rep) := by
  constructor
  · intro agg h
    rw [calculate_final_report, if_pos h]
  · intro agg h
    rw [calculate_final_report, if_neg (by omega)]
    exact ⟨_, rfl⟩

/-- Witness for `calculate_final_report_spec`: a one-run aggregator yields a
populated report. -/
theorem calculate_final_report_spec_witness :
    ∃ rep, calculate_final_report { initAggregator max_pull_limit with num_runs := 1 }
      = FinalizeResult.report rep :=
  calculate_final_report_spec.2 _ (by decide)

/-- C6 counterexample: finalizing with a run count of 0 does not raise — it
returns the empty report dict. -/
theorem calculate_final_report_zero_runs_returns_empty :
    calculate_final_report (initAggregator max_pull_limit) = FinalizeResult.emptyReport ∧
    ∀ msg, calculate_final_report (initAggregator max_pull_limit)
      ≠ FinalizeResult.raised msg := by
  refine ⟨rfl, ?_⟩
  intro msg h
  rw [show calculate_final_report (initAggregator max_pull_limit)
    = FinalizeResult.emptyReport from rfl] at h
  exact FinalizeResult.noConfusion h

/-- C7: the significance analysis returns the "Not enough data" outcome
(`none`) exactly when fewer than 2 rate samples exist; otherwise it returns
the t-test pair computed from the samples and the baseline rate, together
with the observed mean `sum / length`.  The third-party
`scipy.stats.ttest_1samp` is abstracted as the parameter `ttest`. -/
theorem significance_analysis_spec (ttest : List ℚ → ℚ → ℚ × ℚ)
    (rates : List ℚ) (baseline : ℚ) :
    (significance_analysis ttest rates baseline = none ↔ rates.length < 2) ∧
    (2 ≤ rates.length →
      significance_analysis ttest rates baseline = some
        ⟨(ttest rates baseline).1, (ttest rates baseline).2,
         rates.sum / (rates.length : ℚ)⟩) := by
  have hcond : (rates = [] ∨ rates.length < 2) ↔ rates.length < 2 := by
    constructor
    · rintro (rfl | h)
      · simp
      · exact h
    · exact Or.inr
  constructor
  · rw [significance_analysis]
    by_cases h : rates = [] ∨ rates.length < 2
    · rw [if_pos h]
      simp [hcond.1 h]
    · rw [if_neg h]
      have hnl : ¬ rates.length < 2 := fun hl => h (Or.inr hl)
      simp [hnl]
  · intro h2
    rw [significance_analysis, if_neg (fun hc => absurd (hcond.1 hc) (by omega))]

/-- Witness for `significance_analysis_spec`: two samples are enough, and the
abstract t-test pair and the observed mean are passed through. -/
theorem significance_analysis_spec_witness :
    significance_analysis (fun _ _ => ((0 : ℚ), (1 : ℚ))) [1/5, 2/5] (1/5)
      = some ⟨0, 1, (([1/5, 2/5] : List ℚ)).sum / ((([1/5, 2/5] : List ℚ)).length : ℚ)⟩ :=
  (significance_analysis_spec (fun _ _ => ((0 : ℚ), (1 : ℚ))) [1/5, 2/5] (1/5)).2 (by decide)

/-! ### Success histogram (C10) -/

theorem sum_map_ite_add_one {α : Type} [DecidableEq α] (p : α) (f : α → Nat) :
    ∀ (l : List α), l.Nodup → p ∈ l →
      (l.map (fun x => if x = p then f x + 1 else f x)).sum = (l.map f).sum + 1 := by
  intro l
  induction l with
  | nil => intro _ hp; cases hp
  | cons a l ih =>
    intro hnd hp
    rw [List.nodup_cons] at hnd
    rw [List.map_cons, List.map_cons, List.sum_cons, List.sum_cons]
    rcases List.mem_cons.1 hp with rfl | hp'
    · rw [if_pos rfl]
      have hcong : l.map (fun x => if x = p then f x + 1 else f x) = l.map f :=
        List.map_congr_left (fun x hx => if_neg (fun hxp : x = p => hnd.1 (hxp ▸ hx)))
      rw [hcong]
      omega
    · have hne : ¬ a = p := fun hap => hnd.1 (hap ▸ hp')
      rw [if_neg hne, ih hnd.2 hp']
      omega

theorem outcome_step_mpl (agg : SimulationAggregator) (oc : CustomerOutcome) :
    (outcome_step agg oc).max_pull_limit = agg.max_pull_limit := by
  unfold outcome_step
  split_ifs <;> rfl

theorem outcome_step_histogram_total (agg : SimulationAggregator) (oc : CustomerOutcome)
    (hb : oc.got_item = true → 1 ≤ oc.pulls_taken ∧ oc.pulls_taken ≤ agg.max_pull_limit) :
    success_histogram_total (outcome_step agg oc)
      = success_histogram_total agg + (if oc.got_item then 1 else 0) := by
  unfold outcome_step
  by_cases hg : oc.got_item
  · rw [if_pos hg, if_pos hg]
    obtain ⟨hb1, hb2⟩ := hb hg
    unfold success_histogram_total
    simp only []
    have hinner : ∀ it : Item,
        ((List.range' 1 agg.max_pull_limit).map (fun p =>
          if 1 ≤ oc.pulls_taken ∧ oc.pulls_taken ≤ agg.max_pull_limit ∧
              it = oc.desired_item ∧ p = oc.pulls_taken
          then agg.agg_success_by_pull_count it p + 1
          else agg.agg_success_by_pull_count it p)).sum
        = ((List.range' 1 agg.max_pull_limit).map (agg.agg_success_by_pull_count it)).sum
          + (if it = oc.desired_item then 1 else 0) := by
      intro it
      by_cases hit : it = oc.desired_item
      · rw [if_pos hit]
        have hcong : (List.range' 1 agg.max_pull_limit).map (fun p =>
            if 1 ≤ oc.pulls_taken ∧ oc.pulls_taken ≤ agg.max_pull_limit ∧
                it = oc.desired_item ∧ p = oc.pulls_taken
            then agg.agg_success_by_pull_count it p + 1
            else agg.agg_success_by_pull_count it p)
            = (List.range' 1 agg.max_pull_limit).map (fun p =>
              if p = oc.pulls_taken then agg.agg_success_by_pull_count it p + 1
              else agg.agg_success_by_pull_count it p) := by
          apply List.map_congr_left
          intro p _
          by_cases hp : p = oc.pulls_taken
          · rw [if_pos hp, if_pos ⟨hb1, hb2, hit, hp⟩]
          · rw [if_neg hp, if_neg (fun hc => hp hc.2.2.2)]
        rw [hcong]
        exact sum_map_ite_add_one oc.pulls_taken (agg.agg_success_by_pull_count it)
          (List.range' 1 agg.max_pull_limit) (List.nodup_range' _ _)
          (List.mem_range'_1.2 ⟨hb1, by omega⟩)
      · rw [if_neg hit]
        congr 1
        apply List.map_congr_left
        intro p _
        exact if_neg (fun hc => hit hc.2.2.1)
    have houter : ITEMS.map (fun it =>
        ((List.range' 1 agg.max_pull_limit).map (fun p =>
          if 1 ≤ oc.pulls_taken ∧ oc.pulls_taken ≤ agg.max_pull_limit ∧
              it = oc.desired_item ∧ p = oc.pulls_taken
          then agg.agg_success_by_pull_count it p + 1
          else agg.agg_success_by_pull_count it p)).sum)
        = ITEMS.map (fun it =>
          (if it = oc.desired_item
           then ((List.range' 1 agg.max_pull_limit).map
             (agg.agg_success_by_pull_count it)).sum + 1
           else ((List.range' 1 agg.max_pull_limit).map
             (agg.agg_success_by_pull_count it)).sum)) := by
      apply List.map_congr_left
      intro it _
      rw [hinner it]
      by_cases hit : it = oc.desired_item
      · rw [if_pos hit, if_pos hit]
      · rw [if_neg hit, if_neg hit]
        omega
    rw [houter]
    have hitems_nd : ITEMS.Nodup := by decide
    have hdes_mem : oc.desired_item ∈ ITEMS := by cases oc.desired_item <;> decide
    exact sum_map_ite_add_one oc.desired_item
      (fun it => ((List.range' 1 agg.max_pull_limit).map
        (agg.agg_success_by_pull_count it)).sum) ITEMS hitems_nd hdes_mem
  · rw [if_neg hg, if_neg hg]
    unfold success_histogram_total
    simp only []
    omega

theorem outcomes_fold_histogram :
    ∀ (outs : List CustomerOutcome) (agg : SimulationAggregator),
      (∀ oc ∈ outs, oc.got_item = true →
        1 ≤ oc.pulls_taken ∧ oc.pulls_taken ≤ agg.max_pull_limit) →
      success_histogram_total (aggregate_customer_outcomes agg outs)
        = success_histogram_total agg + success_count outs := by
  intro outs
  induction outs with
  | nil => intro agg _; simp [aggregate_customer_outcomes, success_count]
  | cons oc outs ih =>
    intro agg hb
    have hstep := outcome_step_histogram_total agg oc (hb oc (List.mem_cons_self _ _))
    have hrest : ∀ oc2 ∈ outs, oc2.got_item = true →
        1 ≤ oc2.pulls_taken ∧ oc2.pulls_taken ≤ (outcome_step agg oc).max_pull_limit := by
      intro oc2 hm hg
      rw [outcome_step_mpl]
      exact hb oc2 (List.mem_cons_of_mem _ hm) hg
    unfold aggregate_customer_outcomes at ih ⊢
    rw [List.foldl_cons, ih (outcome_step agg oc) hrest, hstep]
    unfold success_count
    by_cases hg : oc.got_item
    · simp [List.filter, hg]
      omega
    · simp [List.filter, hg]

/-- C10: in every lifetime, every successful session's `pulls_taken` lies
between 1 and `max_pull_limit` (every session's is `≤ max_pull_limit`), so
the dict-key membership guard of `_aggregate_customer_outcomes` always
admits a success: folding a lifetime's outcomes into any aggregator built
with this configuration's `max_pull_limit` grows the success histogram by
exactly the number of successful sessions — no success is silently
dropped. -/
theorem success_histogram_no_drop (o : Oracle) :
    (∀ oc ∈ (run_single_simulation o).customer_outcomes,
      oc.pulls_taken ≤ max_pull_limit ∧ (oc.got_item = true → 1 ≤ oc.pulls_taken)) ∧
    (∀ agg : SimulationAggregator, agg.max_pull_limit = max_pull_limit →
      success_histogram_total
        (aggregate_customer_outcomes agg (run_single_simulation o).customer_outcomes)
        = success_histogram_total agg
          + success_count (run_single_simulation o).customer_outcomes) := by
  obtain ⟨cF, _, _, _, _, _, _, _, _, houts⟩ := run_single_simulation_spec o
  refine ⟨houts, ?_⟩
  intro agg hmpl
  apply outcomes_fold_histogram
  intro oc hm hg
  obtain ⟨h1, h2⟩ := houts oc hm
  exact ⟨h2 hg, by omega⟩

/-- Witness for `success_histogram_no_drop`: the concrete `oracleA` lifetime
has a failed 20-pull session among its outcomes (bounded by the limit), and
folding its outcomes into a fresh aggregator stores every success. -/
theorem success_histogram_no_drop_witness :
    (⟨Item.rareGoldCat, false, 20⟩ : CustomerOutcome).pulls_taken ≤ max_pull_limit ∧
    success_histogram_total
      (aggregate_customer_outcomes (initAggregator max_pull_limit)
        (run_single_simulation oracleA).customer_outcomes)
      = success_histogram_total (initAggregator max_pull_limit)
        + success_count (run_single_simulation oracleA).customer_outcomes :=
  ⟨((success_histogram_no_drop oracleA).1 ⟨Item.rareGoldCat, false, 20⟩ (by decide)).1,
   (success_histogram_no_drop oracleA).2 (initAggregator max_pull_limit) rfl⟩

/-! ### Aggregator additivity (C9) -/

theorem combine_num_bump (a b : SimulationAggregator) :
    { combineAggregates a b with num_runs := (combineAggregates a b).num_runs + 1 }
      = combineAggregates a { b with num_runs := b.num_runs + 1 } := by
  ext <;> simp [combineAggregates] <;> omega

theorem snapshot_level_step_combine (st : Inv) (a b : SimulationAggregator)
    (P : List Level) (lv : Level) :
    snapshot_level_step st (combineAggregates a b, P) lv
      = (combineAggregates a (snapshot_level_step st (b, P) lv).1,
         (snapshot_level_step st (b, P) lv).2) := by
  simp only [snapshot_level_step]
  by_cases hg : levelValue lv ≤ total_remaining st ∧ lv ∉ P
  · rw [if_pos hg, if_pos hg]
    refine Prod.ext ?_ rfl
    ext <;> simp [combineAggregates] <;> (try split_ifs) <;>
      first
      | rfl
      | omega
      | simp
  · rw [if_neg hg, if_neg hg]

theorem levels_fold_combine (st : Inv) (a : SimulationAggregator) :
    ∀ (ls : List Level) (b : SimulationAggregator) (P : List Level),
      ls.foldl (snapshot_level_step st) (combineAggregates a b, P)
        = (combineAggregates a (ls.foldl (snapshot_level_step st) (b, P)).1,
           (ls.foldl (snapshot_level_step st) (b, P)).2) := by
  intro ls
  induction ls with
  | nil => intro b P; rfl
  | cons lv ls ih =>
    intro b P
    rw [List.foldl_cons, List.foldl_cons, snapshot_level_step_combine]
    exact ih _ _

theorem snapshots_scan_combine (a : SimulationAggregator) :
    ∀ (L : List Inv) (b : SimulationAggregator) (P : List Level),
      L.foldl (fun acc st => snapshot_step st acc) (combineAggregates a b, P)
        = (combineAggregates a (L.foldl (fun acc st => snapshot_step st acc) (b, P)).1,
           (L.foldl (fun acc st => snapshot_step st acc) (b, P)).2) := by
  intro L
  induction L with
  | nil => intro b P; rfl
  | cons st0 L ih =>
    intro b P
    rw [List.foldl_cons, List.foldl_cons]
    show L.foldl (fun acc st => snapshot_step st acc) (snapshot_step st0 (combineAggregates a b, P)) = _
    rw [show snapshot_step st0 (combineAggregates a b, P)
        = (combineAggregates a (snapshot_step st0 (b, P)).1, (snapshot_step st0 (b, P)).2) from
      levels_fold_combine st0 a SNAPSHOT_LEVELS b P]
    exact ih _ _

theorem aggregate_snapshots_combine (a b : SimulationAggregator) (hist : List Inv) :
    aggregate_snapshots (combineAggregates a b) hist
      = combineAggregates a (aggregate_snapshots b hist) := by
  unfold aggregate_snapshots
  rw [snapshots_scan_combine]

theorem outcome_step_combine (a b : SimulationAggregator)
    (hmpl : a.max_pull_limit = b.max_pull_limit) (oc : CustomerOutcome) :
    outcome_step (combineAggregates a b) oc = combineAggregates a (outcome_step b oc) := by
  unfold outcome_step
  have hm : (combineAggregates a b).max_pull_limit = b.max_pull_limit := hmpl
  by_cases hg : oc.got_item
  · rw [if_pos hg, if_pos hg]
    ext <;> simp [combineAggregates, hmpl] <;> (try split_ifs) <;>
      first
      | rfl
      | omega
      | simp
  · rw [if_neg hg, if_neg hg]
    ext <;> simp [combineAggregates] <;> (try split_ifs) <;>
      first
      | rfl
      | omega
      | simp

theorem aggregate_customer_outcomes_combine (a : SimulationAggregator)
    (outs : List CustomerOutcome) :
    ∀ (b : SimulationAggregator), a.max_pull_limit = b.max_pull_limit →
      aggregate_customer_outcomes (combineAggregates a b) outs
        = combineAggregates a (aggregate_customer_outcomes b outs) := by
  unfold aggregate_customer_outcomes
  induction outs with
  | nil => intro b _; rfl
  | cons oc outs ih =>
    intro b hmpl
    rw [List.foldl_cons, List.foldl_cons, outcome_step_combine a b hmpl oc]
    exact ih _ (by rw [outcome_step_mpl]; exact hmpl)

theorem aggregate_depletion_points_combine (a : SimulationAggregator)
    (dep : List (Item × Nat)) :
    ∀ (b : SimulationAggregator),
      aggregate_depletion_points (combineAggregates a b) dep
        = combineAggregates a (aggregate_depletion_points b dep) := by
  unfold aggregate_depletion_points
  induction dep with
  | nil => intro b; rfl
  | cons p dep ih =>
    intro b
    rw [List.foldl_cons, List.foldl_cons]
    have hstep : ∀ (x : SimulationAggregator) (y : SimulationAggregator),
        ({ combineAggregates x y with
            agg_depletion_pulls := fun it =>
              if it = p.1 then (combineAggregates x y).agg_depletion_pulls it + p.2
              else (combineAggregates x y).agg_depletion_pulls it,
            agg_depletion_counts := fun it =>
              if it = p.1 then (combineAggregates x y).agg_depletion_counts it + 1
              else (combineAggregates x y).agg_depletion_counts it } : SimulationAggregator)
          = combineAggregates x
            { y with
              agg_depletion_pulls := fun it =>
                if it = p.1 then y.agg_depletion_pulls it + p.2
                else y.agg_depletion_pulls it,
              agg_depletion_counts := fun it =>
                if it = p.1 then y.agg_depletion_counts it + 1
                else y.agg_depletion_counts it } := by
      intro x y
      ext <;> simp [combineAggregates] <;> (try split_ifs) <;>
        first
        | rfl
        | omega
        | simp
    rw [hstep]
    exact ih _

theorem aggregate_lifecycle_rates_combine (a : SimulationAggregator) (hist : List Inv) :
    ∀ (b : SimulationAggregator),
      aggregate_lifecycle_rates (combineAggregates a b) hist
        = combineAggregates a (aggregate_lifecycle_rates b hist) := by
  unfold aggregate_lifecycle_rates
  induction hist with
  | nil => intro b; rfl
  | cons st hist ih =>
    intro b
    rw [List.foldl_cons, List.foldl_cons]
    by_cases hg : 0 < total_remaining st
    · rw [if_pos hg, if_pos hg]
      have hstep : ({ combineAggregates a b with
            total_lifecycle_steps := (combineAggregates a b).total_lifecycle_steps + 1,
            agg_lifecycle_rates := fun it =>
              (combineAggregates a b).agg_lifecycle_rates it
                + (getCount st it : ℚ) / (total_remaining st : ℚ) } : SimulationAggregator)
          = combineAggregates a
            { b with
              total_lifecycle_steps := b.total_lifecycle_steps + 1,
              agg_lifecycle_rates := fun it =>
                b.agg_lifecycle_rates it
                  + (getCount st it : ℚ) / (total_remaining st : ℚ) } := by
        ext <;> simp [combineAggregates] <;>
          first
          | rfl
          | omega
          | ring
      rw [hstep]
      exact ih _
    · rw [if_neg hg, if_neg hg]
      exact ih _

theorem snapshot_level_step_mpl (st : Inv) (acc : SimulationAggregator × List Level)
    (lv : Level) :
    (snapshot_level_step st acc lv).1.max_pull_limit = acc.1.max_pull_limit := by
  unfold snapshot_level_step
  split_ifs <;> rfl

theorem levels_fold_mpl (st : Inv) :
    ∀ (ls : List Level) (acc : SimulationAggregator × List Level),
      (ls.foldl (snapshot_level_step st) acc).1.max_pull_limit = acc.1.max_pull_limit := by
  intro ls
  induction ls with
  | nil => intro acc; rfl
  | cons lv ls ih =>
    intro acc
    rw [List.foldl_cons, ih, snapshot_level_step_mpl]

theorem snapshots_scan_mpl :
    ∀ (L : List Inv) (acc : SimulationAggregator × List Level),
      (L.foldl (fun a s => snapshot_step s a) acc).1.max_pull_limit
        = acc.1.max_pull_limit := by
  intro L
  induction L with
  | nil => intro acc; rfl
  | cons st L ih =>
    intro acc
    rw [List.foldl_cons, ih]
    exact levels_fold_mpl st SNAPSHOT_LEVELS acc

theorem aggregate_snapshots_mpl (agg : SimulationAggregator) (hist : List Inv) :
    (aggregate_snapshots agg hist).max_pull_limit = agg.max_pull_limit := by
  unfold aggregate_snapshots
  exact snapshots_scan_mpl hist.reverse (agg, [])

theorem aggregate_customer_outcomes_mpl (outs : List CustomerOutcome) :
    ∀ (agg : SimulationAggregator),
      (aggregate_customer_outcomes agg outs).max_pull_limit = agg.max_pull_limit := by
  unfold aggregate_customer_outcomes
  induction outs with
  | nil => intro agg; rfl
  | cons oc outs ih =>
    intro agg
    rw [List.foldl_cons, ih, outcome_step_mpl]

theorem aggregate_depletion_points_mpl (dep : List (Item × Nat)) :
    ∀ (agg : SimulationAggregator),
      (aggregate_depletion_points agg dep).max_pull_limit = agg.max_pull_limit := by
  unfold aggregate_depletion_points
  induction dep with
  | nil => intro agg; rfl
  | cons p dep ih =>
    intro agg
    rw [List.foldl_cons, ih]

theorem aggregate_lifecycle_rates_mpl (hist : List Inv) :
    ∀ (agg : SimulationAggregator),
      (aggregate_lifecycle_rates agg hist).max_pull_limit = agg.max_pull_limit := by
  unfold aggregate_lifecycle_rates
  induction hist with
  | nil => intro agg; rfl
  | cons st hist ih =>
    intro agg
    rw [List.foldl_cons, ih]
    split_ifs <;> rfl

theorem add_result_mpl (agg : SimulationAggregator) (res : SimulationResult) :
    (add_result agg res).max_pull_limit = agg.max_pull_limit := by
  unfold add_result
  rw [aggregate_lifecycle_rates_mpl, aggregate_depletion_points_mpl,
    aggregate_customer_outcomes_mpl, aggregate_snapshots_mpl]

theorem combine_init_right (agg : SimulationAggregator) :
    combineAggregates agg (initAggregator agg.max_pull_limit) = agg := by
  ext <;> simp [combineAggregates, initAggregator]

theorem add_result_combine (a b : SimulationAggregator)
    (hmpl : a.max_pull_limit = b.max_pull_limit) (res : SimulationResult) :
    add_result (combineAggregates a b) res = combineAggregates a (add_result b res) := by
  simp only [add_result]
  rw [combine_num_bump a b, aggregate_snapshots_combine,
    aggregate_customer_outcomes_combine a res.customer_outcomes _
      (by rw [aggregate_snapshots_mpl]; exact hmpl),
    aggregate_depletion_points_combine, aggregate_lifecycle_rates_combine]

theorem foldl_add_result_eq_combine (rs : List SimulationResult) :
    ∀ agg : SimulationAggregator,
      List.foldl add_result agg rs
        = List.foldl combineAggregates agg
            (rs.map (add_result (initAggregator agg.max_pull_limit))) := by
  induction rs with
  | nil => intro agg; rfl
  | cons r rs ih =>
    intro agg
    rw [List.map_cons, List.foldl_cons, List.foldl_cons]
    have h1 : add_result agg r
        = combineAggregates agg (add_result (initAggregator agg.max_pull_limit) r) := by
      conv_lhs => rw [← combine_init_right agg]
      exact add_result_combine agg (initAggregator agg.max_pull_limit) rfl r
    rw [ih (add_result agg r), add_result_mpl, h1]

/-- C9 (amended): adding N lifetime results into one aggregator equals
summing the N separately-tracked single-lifetime aggregates field-wise
(numeric fields by addition, the per-run rate-sample lists by concatenation
in the same order), and the finalized reports agree; however the rate-sample
lists record samples in insertion order, so the aggregate is NOT independent
of the order in which results are added (see the counterexample). -/
theorem aggregator_additive (rs : List SimulationResult) (agg : SimulationAggregator) :
    List.foldl add_result agg rs
      = List.foldl combineAggregates agg
          (rs.map (add_result (initAggregator agg.max_pull_limit))) ∧
    calculate_final_report (List.foldl add_result agg rs)
      = calculate_final_report (List.foldl combineAggregates agg
          (rs.map (add_result (initAggregator agg.max_pull_limit)))) := by
  refine ⟨foldl_add_result_eq_combine rs agg, ?_⟩
  rw [foldl_add_result_eq_combine rs agg]

theorem aggregate_customer_outcomes_rates (outs : List CustomerOutcome) :
    ∀ (agg : SimulationAggregator),
      (aggregate_customer_outcomes agg outs).snapshot_rate_distributions
        = agg.snapshot_rate_distributions := by
  unfold aggregate_customer_outcomes
  induction outs with
  | nil => intro agg; rfl
  | cons oc outs ih =>
    intro agg
    rw [List.foldl_cons, ih]
    unfold outcome_step
    split_ifs <;> rfl

theorem aggregate_depletion_points_rates (dep : List (Item × Nat)) :
    ∀ (agg : SimulationAggregator),
      (aggregate_depletion_points agg dep).snapshot_rate_distributions
        = agg.snapshot_rate_distributions := by
  unfold aggregate_depletion_points
  induction dep with
  | nil => intro agg; rfl
  | cons p dep ih =>
    intro agg
    rw [List.foldl_cons, ih]

theorem aggregate_lifecycle_rates_rates (hist : List Inv) :
    ∀ (agg : SimulationAggregator),
      (aggregate_lifecycle_rates agg hist).snapshot_rate_distributions
        = agg.snapshot_rate_distributions := by
  unfold aggregate_lifecycle_rates
  induction hist with
  | nil => intro agg; rfl
  | cons st hist ih =>
    intro agg
    rw [List.foldl_cons, ih]
    split_ifs <;> rfl

theorem add_result_rates (agg : SimulationAggregator) (res : SimulationResult) :
    (add_result agg res).snapshot_rate_distributions
      = (aggregate_snapshots { agg with num_runs := agg.num_runs + 1 }
          res.state_history).snapshot_rate_distributions := by
  unfold add_result
  rw [aggregate_lifecycle_rates_rates, aggregate_depletion_points_rates,
    aggregate_customer_outcomes_rates]

/-- C9 counterexample: the per-run rate-sample lists depend on the order in
which the two lifetimes `oracleA`/`oracleB` are added — the 25%-threshold
rate samples of the rare item are `[1/3, 0]` one way and `[0, 1/3]` the
other. -/
theorem add_result_order_dependent :
    (add_result (add_result (initAggregator max_pull_limit) (run_single_simulation oracleA))
        (run_single_simulation oracleB)).snapshot_rate_distributions
          Level.p25 Item.rareGoldCat
    ≠ (add_result (add_result (initAggregator max_pull_limit) (run_single_simulation oracleB))
        (run_single_simulation oracleA)).snapshot_rate_distributions
          Level.p25 Item.rareGoldCat := by
  have hfA : (run_single_simulation oracleA).state_history.reverse.find?
      (fun s => decide (levelValue Level.p25 ≤ total_remaining s))
      = some ⟨0, 0, 10, 10, 10⟩ := by decide
  have hfB : (run_single_simulation oracleB).state_history.reverse.find?
      (fun s => decide (levelValue Level.p25 ≤ total_remaining s))
      = some ⟨10, 10, 0, 0, 0⟩ := by decide
  set A1 := add_result (initAggregator max_pull_limit) (run_single_simulation oracleA) with hA1
  set B1 := add_result (initAggregator max_pull_limit) (run_single_simulation oracleB) with hB1
  clear_value A1 B1
  have h1 : A1.snapshot_rate_distributions Level.p25 Item.rareGoldCat
      = [snapshotRate ⟨0, 0, 10, 10, 10⟩ Item.rareGoldCat] := by
    rw [hA1, add_result_rates]
    obtain ⟨_, hr⟩ := aggregate_snapshots_char _ _ Level.p25 Item.rareGoldCat _ hfA
    rw [hr]
    rfl
  have h2 : B1.snapshot_rate_distributions Level.p25 Item.rareGoldCat
      = [snapshotRate ⟨10, 10, 0, 0, 0⟩ Item.rareGoldCat] := by
    rw [hB1, add_result_rates]
    obtain ⟨_, hr⟩ := aggregate_snapshots_char _ _ Level.p25 Item.rareGoldCat _ hfB
    rw [hr]
    rfl
  have hAB : (add_result A1 (run_single_simulation oracleB)).snapshot_rate_distributions
      Level.p25 Item.rareGoldCat
      = [snapshotRate ⟨0, 0, 10, 10, 10⟩ Item.rareGoldCat,
         snapshotRate ⟨10, 10, 0, 0, 0⟩ Item.rareGoldCat] := by
    rw [add_result_rates]
    obtain ⟨_, hr⟩ := aggregate_snapshots_char _ _ Level.p25 Item.rareGoldCat _ hfB
    rw [hr]
    have hproj : ({ A1 with num_runs := A1.num_runs + 1 }
        : SimulationAggregator).snapshot_rate_distributions
        = A1.snapshot_rate_distributions := rfl
    rw [hproj, h1]
    rfl
  have hBA : (add_result B1 (run_single_simulation oracleA)).snapshot_rate_distributions
      Level.p25 Item.rareGoldCat
      = [snapshotRate ⟨10, 10, 0, 0, 0⟩ Item.rareGoldCat,
         snapshotRate ⟨0, 0, 10, 10, 10⟩ Item.rareGoldCat] := by
    rw [add_result_rates]
    obtain ⟨_, hr⟩ := aggregate_snapshots_char _ _ Level.p25 Item.rareGoldCat _ hfA
    rw [hr]
    have hproj : ({ B1 with num_runs := B1.num_runs + 1 }
        : SimulationAggregator).snapshot_rate_distributions
        = B1.snapshot_rate_distributions := rfl
    rw [hproj, h2]
    rfl
  rw [hAB, hBA]
  have hvA : snapshotRate ⟨0, 0, 10, 10, 10⟩ Item.rareGoldCat = 1/3 := by
    norm_num [snapshotRate, total_remaining, ITEMS, getCount]
  have hvB : snapshotRate ⟨10, 10, 0, 0, 0⟩ Item.rareGoldCat = 0 := by
    norm_num [snapshotRate, total_remaining, ITEMS, getCount]
  rw [hvA, hvB]
  intro hcontra
  rw [List.cons.injEq] at hcontra
  have : (1 : ℚ)/3 = 0 := hcontra.1
  norm_num at this

end Gachapon
